import Mathlib

/-!
# Verification of the price-tool multi-source search pipeline

Shallow embedding of the repository's core logic:

* `src/src/scraper/base_scraper.py` — `BaseScraper.clean_price`, `match_product`
* `src/src/utils/google_custom_search.py` — `PRICE_PATTERNS`,
  `extract_price_from_text`, `is_likely_year_not_price`,
  the result construction of `search_products_google` and `extract_with_gemini`
* `src/src/scraper/scraper_manager.py` — scraper selection and result merging
* `src/src/api/routes.py` — `estimate_price`, `get_price_for_sorting`,
  the `/search` endpoint
* `src/src/scraper/sites/{amazon,flipkart,generic_ai_scraper}.py` —
  the AI-extraction item-validation loops

Python strings are modelled as Lean `String`/`List Char` (ASCII case
conversion; the repository only handles ASCII country codes, keywords and
prices).  Python's `float(...)` on a numeric literal is modelled exactly over
decimals (`pyFloatCore`, returning `Option ℚ`); `str(float(...))` is modelled
by `normDecimal`, which renders the exact decimal value in fixed notation when
its decimal exponent lies in `[-4, 16)` and in CPython's scientific notation
(`d[.ddd]e±XX`, two-digit minimum exponent) otherwise — the same rendering
rule `float.__repr__` applies.  The model keeps the literal's exact digits:
CPython's rounding of the value to 53 binary digits followed by
shortest-round-trip reprinting is not modelled, so rendered digit strings are
faithful to CPython exactly when the cleaned numeral's significant digits
survive the float round-trip (always the case for at most 15 significant
digits).  Theorems about rendered outputs are therefore stated either on
concrete inputs in that faithful regime, or with value-range hypotheses that
hold in CPython for the same reason they hold here.  `inf`/`nan` literals and
digit-group underscores are outside the model's scope and are never produced
by the repository's data.
-/

set_option maxHeartbeats 1000000

/-! ## Generic list/char helpers -/

/-- Boolean: `sub` occurs as a contiguous run inside `l` (Python's `in` on
strings). -/
def subAt (sub l : List Char) : Bool :=
  match l with
  | [] => sub.isEmpty
  | _ :: t => (l.take sub.length == sub) || subAt sub t

/-- Python `needle in haystack` on strings. -/
def strIn (needle haystack : String) : Bool :=
  subAt needle.data haystack.data

/-- Boolean list membership for characters. -/
def hasChar (l : List Char) (a : Char) : Bool :=
  l.any (fun c => c == a)

/-- Python `s.upper()` (ASCII). -/
def pyUpper (s : String) : String :=
  String.mk (s.data.map Char.toUpper)

/-- Python `s.lower()` (ASCII). -/
def pyLower (s : String) : String :=
  String.mk (s.data.map Char.toLower)

/-- Python `s.startswith(pre)`. -/
def pyStartsWith (s pre : String) : Bool :=
  s.data.take pre.data.length == pre.data

/-- Fuel-driven worker for `str.split(sep)` with a non-empty separator. -/
def splitFuel (sep : List Char) : Nat → List Char → List Char → List (List Char)
  | _, acc, [] => [acc.reverse]
  | 0, acc, l => [acc.reverse ++ l]
  | fuel + 1, acc, c :: t =>
    if sep ≠ [] ∧ (c :: t).take sep.length = sep then
      acc.reverse :: splitFuel sep fuel [] ((c :: t).drop sep.length)
    else splitFuel sep fuel (c :: acc) t

/-- Python `s.split(sep)` for a non-empty separator. -/
def pySplit (s sep : String) : List String :=
  (splitFuel sep.data s.data.length [] s.data).map String.mk

/-- Fuel-driven worker for `str.replace(pat, repl)` with a non-empty
pattern. -/
def replaceFuel (pat repl : List Char) : Nat → List Char → List Char
  | _, [] => []
  | 0, l => l
  | fuel + 1, c :: t =>
    if pat ≠ [] ∧ (c :: t).take pat.length = pat then
      repl ++ replaceFuel pat repl fuel ((c :: t).drop pat.length)
    else c :: replaceFuel pat repl fuel t

/-- Python `s.replace(pat, repl)` for a non-empty pattern. -/
def pyReplace (s pat repl : String) : String :=
  String.mk (replaceFuel pat.data repl.data s.data.length s.data)

/-- Value of a digit string read in base 10 (`'0'`–`'9'`). -/
def digitsToNat (l : List Char) : Nat :=
  l.foldl (fun a c => 10 * a + (c.toNat - 48)) 0

/-- Strip leading and trailing whitespace (Python `float` accepts surrounding
whitespace). -/
def stripWs (l : List Char) : List Char :=
  ((l.dropWhile Char.isWhitespace).reverse.dropWhile Char.isWhitespace).reverse

/-- Split a leading `+`/`-` sign off a numeric literal, returning the sign as
`1` or `-1`. -/
def signSplit (l : List Char) : Int × List Char :=
  match l with
  | [] => (1, [])
  | c :: r =>
    if c = '+' then (1, r)
    else if c = '-' then (-1, r)
    else (1, c :: r)

/-! ## Python `float(...)` on a string, as an exact rational

Models acceptance and value of CPython `float(s)` for decimal literals:
optional surrounding whitespace, optional sign, `digits[.digits]` or
`.digits`, optional exponent part. -/

/-- Parse the mantissa `digits[.digits]` / `.digits`; returns its value and
the unconsumed remainder. -/
def mantissaSplit (l : List Char) : Option (ℚ × List Char) :=
  let ip := l.takeWhile Char.isDigit
  let r1 := l.dropWhile Char.isDigit
  match r1 with
  | [] => if ip = [] then none else some ((digitsToNat ip : ℚ), [])
  | c :: r2 =>
    if c = '.' then
      let fp := r2.takeWhile Char.isDigit
      let r3 := r2.dropWhile Char.isDigit
      if ip = [] ∧ fp = [] then none
      else some ((digitsToNat ip : ℚ) + (digitsToNat fp : ℚ) / (10 : ℚ) ^ fp.length, r3)
    else if ip = [] then none else some ((digitsToNat ip : ℚ), c :: r2)

/-- Python `float(s)` over `List Char`: `none` models `ValueError`. -/
def pyFloatCore (l : List Char) : Option ℚ :=
  let l1 := stripWs l
  let s := signSplit l1
  match mantissaSplit s.2 with
  | none => none
  | some (m, rest) =>
    match rest with
    | [] => some (s.1 * m)
    | c :: r2 =>
      if c = 'e' ∨ c = 'E' then
        let es := signSplit r2
        let ed := es.2.takeWhile Char.isDigit
        let r4 := es.2.dropWhile Char.isDigit
        if ed = [] ∨ r4 ≠ [] then none
        else some (s.1 * m * (10 : ℚ) ^ (es.1 * (digitsToNat ed : Int)))
      else none

/-- Python `float(s)` on a Lean string. -/
def pyFloatQ (s : String) : Option ℚ :=
  pyFloatCore s.data

/-! ## `str(float(...))`: canonical decimal rendering

`normDecimal` maps the cleaned numeral to the string CPython's
`str(float(...))` produces: it accepts `digits[.digits]`/`.digits` (anything
else — a surviving comma, several dots, no digits — models `ValueError`) and
renders the exact value with `float.__repr__`'s notation rule: fixed notation
`I.F` (zeros normalised) when the value's decimal exponent is in `[-4, 16)`
or the value is zero, scientific notation `d[.ddd]e±XX` otherwise.  The
value is kept exact (no 53-bit rounding), so the printed digits agree with
CPython whenever the numeral's significant digits round-trip through a
double — in particular for at most 15 significant digits. -/

/-- Drop leading `'0'` characters. -/
def stripZerosL (l : List Char) : List Char :=
  l.dropWhile (fun c => c = '0')

/-- Drop trailing `'0'` characters. -/
def stripZerosR (l : List Char) : List Char :=
  (l.reverse.dropWhile (fun c => c = '0')).reverse

/-- Render integer-part digits `ip` and fraction-part digits `fp` in fixed
notation the way `str(float(...))` prints values with decimal exponent in
`[-4, 16)`: `"I.F"` with zeros normalised. -/
def renderDec (ip fp : List Char) : List Char :=
  let i := stripZerosL ip
  let i := if i = [] then ['0'] else i
  let f := stripZerosR fp
  let f := if f = [] then ['0'] else f
  i ++ '.' :: f

/-- The character for a decimal digit value. -/
def digitChar : Nat → Char
  | 0 => '0' | 1 => '1' | 2 => '2' | 3 => '3' | 4 => '4'
  | 5 => '5' | 6 => '6' | 7 => '7' | 8 => '8' | _ => '9'

/-- Fuel-driven big-endian decimal digits of a natural number. -/
def natDecAux : Nat → Nat → List Char → List Char
  | 0, _, acc => acc
  | fuel + 1, n, acc =>
    if n < 10 then digitChar n :: acc
    else natDecAux fuel (n / 10) (digitChar (n % 10) :: acc)

/-- Decimal digit string of a natural number. -/
def natDec (n : Nat) : List Char :=
  natDecAux (n + 1) n []

/-- Exponent digits of `float.__repr__`'s scientific notation: at least two
digits, zero-padded. -/
def expDigits (e : Int) : List Char :=
  let ds := natDec e.natAbs
  if ds.length < 2 then '0' :: ds else ds

/-- Significant digits (leading and trailing zeros stripped) and decimal
exponent of the value `ip.fp`: for a non-zero value `v`,
`10 ^ e ≤ v < 10 ^ (e + 1)`. -/
def sigExp (ip fp : List Char) : List Char × Int :=
  (stripZerosR (stripZerosL (ip ++ fp)),
   (ip.length : Int) - (((ip ++ fp).takeWhile (fun c => c = '0')).length : Int) - 1)

/-- Scientific rendering `d[.ddd]e±XX` of significant digits `sig` scaled by
`10 ^ e`, exactly as `float.__repr__` formats values with decimal exponent
outside `[-4, 16)` (e.g. `1e-05`, `1.2345e+19`). -/
def renderSci (sig : List Char) (e : Int) : List Char :=
  (match sig with
   | [] => ['0']
   | d :: rest => if rest = [] then [d] else d :: '.' :: rest) ++
  'e' :: (if e < 0 then '-' else '+') :: expDigits e

/-- Render the value `ip.fp` with `float.__repr__`'s notation rule: fixed
notation for decimal exponents in `[-4, 16)` (and for zero), scientific
notation otherwise. -/
def renderVal (ip fp : List Char) : List Char :=
  if (sigExp ip fp).1 ≠ [] ∧ ((sigExp ip fp).2 < -4 ∨ 16 ≤ (sigExp ip fp).2) then
    renderSci (sigExp ip fp).1 (sigExp ip fp).2
  else renderDec ip fp

/-- Parse-and-reprint for `str(float(clean))` inside `clean_price`: the input
has already been filtered to digits, `.` and `,`. -/
def normDecimal (l : List Char) : Option (List Char) :=
  let ip := l.takeWhile Char.isDigit
  let r1 := l.dropWhile Char.isDigit
  match r1 with
  | [] => if ip = [] then none else some (renderVal ip [])
  | c :: r2 =>
    if c = '.' then
      let fp := r2.takeWhile Char.isDigit
      let r3 := r2.dropWhile Char.isDigit
      if r3 ≠ [] then none
      else if ip = [] ∧ fp = [] then none
      else some (renderVal ip fp)
    else none

/-- Value of the mantissa `d[.rest]` of a scientific rendering. -/
def mantQ : List Char → ℚ
  | [] => 0
  | d :: rest =>
    (digitsToNat [d] : ℚ) + (digitsToNat rest : ℚ) / (10 : ℚ) ^ rest.length

/-! ## `BaseScraper.clean_price` (src/src/scraper/base_scraper.py:90-108) -/

/-- The comma/dot separator resolution of `clean_price` (lines 98-103):
with both separators and the comma first, commas are thousands separators and
are removed; with only commas, they become decimal dots. -/
def commaFix (clean : List Char) : List Char :=
  if hasChar clean ',' && hasChar clean '.' then
    if clean.findIdx (fun c => c = ',') < clean.findIdx (fun c => c = '.') then
      clean.filter (fun c => c ≠ ',')
    else clean
  else if hasChar clean ',' then
    clean.map (fun c => if c = ',' then '.' else c)
  else clean

/-- The body of `clean_price` over `List Char`. -/
def clean_priceCore (price : List Char) : List Char :=
  if price = [] then ['0']
  else
    match normDecimal (commaFix (price.filter (fun c => c.isDigit || c = '.' || c = ','))) with
    | some ds => ds
    | none => ['0']

/-- Models `BaseScraper.clean_price`: strip non-numeric characters, resolve the
comma/dot separator convention, then `str(float(...))`, with `"0"` on any
parse failure (a `None` argument, also mapped to `"0"` by the source, is not
representable in the `String` model). -/
def clean_price (price : String) : String :=
  String.mk (clean_priceCore price.data)

/-! ## A small regular-expression engine

`re.findall(pattern, text)[0]` / `re.search(pattern, text)` for the patterns
appearing in the repository.  Every quantifier in those patterns applies to a
single-character class, and alternation only occurs at top level, so a pattern
is a list of alternatives, each a sequence of atoms.  Matching follows
CPython `re` semantics: scan positions left to right, at each position try the
alternatives in order, with greedy backtracking inside a sequence.
`\s`/`\d` are modelled as ASCII whitespace/digits (the repository's inputs to
these patterns are ASCII apart from currency symbols). -/

/-- Quantifier on a character class. -/
inductive RQuant where
  | one
  | optional
  | star
  | plus
  | atLeast (n : Nat)
deriving DecidableEq

/-- One atom of a regular expression: a literal (case-insensitive when `ci`)
or a quantified character class. -/
inductive RAtom where
  | lit (s : String) (ci : Bool)
  | cls (p : Char → Bool) (q : RQuant)

/-- A pattern: alternatives (tried in order), each a sequence of atoms. -/
def RPattern := List (List RAtom)

/-- Case-insensitive character equality (ASCII, as CPython `re.IGNORECASE`
behaves on ASCII). -/
def charEqCI (ci : Bool) (a b : Char) : Bool :=
  if ci then a.toLower == b.toLower else a == b

/-- Does `l` start with literal `s` (under `ci`)? -/
def litMatches (s : List Char) (ci : Bool) (l : List Char) : Bool :=
  match s, l with
  | [], _ => true
  | _ :: _, [] => false
  | a :: s', c :: l' => charEqCI ci a c && litMatches s' ci l'

/-- Remainders after consuming `k, k-1, …, 0` characters of the maximal run
of `p`-characters — the greedy preference order of `p*`. -/
def greedyRuns (p : Char → Bool) (l : List Char) : List (List Char) :=
  ((List.range ((l.takeWhile p).length + 1)).reverse).map (fun k => l.drop k)

/-- Possible remainders after one atom, in backtracking preference order. -/
def atomOptions (a : RAtom) (l : List Char) : List (List Char) :=
  match a with
  | .lit s ci => if litMatches s.data ci l then [l.drop s.data.length] else []
  | .cls p q =>
    match q with
    | .one =>
      match l with
      | [] => []
      | c :: r => if p c then [r] else []
    | .optional =>
      match l with
      | [] => [[]]
      | c :: r => if p c then [r, c :: r] else [c :: r]
    | .star => greedyRuns p l
    | .plus => (greedyRuns p l).dropLast
    | .atLeast n =>
      let runs := greedyRuns p l
      runs.take (runs.length - n)

/-- All remainders after matching the whole sequence, in preference order. -/
def seqMatches (atoms : List RAtom) (l : List Char) : List (List Char) :=
  match atoms with
  | [] => [l]
  | a :: rest => (atomOptions a l).flatMap (fun r => seqMatches rest r)

/-- Try the alternatives in order at this position; return the remainder of
the first that matches. -/
def altsMatch (alts : RPattern) (l : List Char) : Option (List Char) :=
  match alts with
  | [] => none
  | alt :: rest =>
    match (seqMatches alt l).head? with
    | some r => some r
    | none => altsMatch rest l

/-- Leftmost match of the pattern in `l` (the text `re.findall(...)[0]`
returns), or `none`. -/
def findFirst (pat : RPattern) (l : List Char) : Option (List Char) :=
  match altsMatch pat l with
  | some rem => some (l.take (l.length - rem.length))
  | none =>
    match l with
    | [] => none
    | _ :: t => findFirst pat t

/-- Models `re.search(pattern, text)` truthiness. -/
def reSearch (pat : RPattern) (l : List Char) : Bool :=
  (findFirst pat l).isSome

/-! ## Character classes and the price patterns
(src/src/utils/google_custom_search.py:24-35) -/

/-- The currency-symbol class `[\$\£\€\¥\₹]`. -/
def curSym (c : Char) : Bool :=
  c == '$' || c == '£' || c == '€' || c == '¥' || c == '₹'

/-- Class `\d`. -/
def isDig (c : Char) : Bool := c.isDigit

/-- Class `[^\d]`. -/
def notDig (c : Char) : Bool := !c.isDigit

/-- Class `[\d,]`. -/
def digComma (c : Char) : Bool := c.isDigit || c == ','

/-- Class `\s`. -/
def isWs (c : Char) : Bool := c.isWhitespace

/-- Class `\.`. -/
def isDot (c : Char) : Bool := c == '.'

/-- The common tail `[\d,]+\.?\d*` of the price patterns. -/
def amountAtoms : List RAtom :=
  [.cls digComma .plus, .cls isDot .optional, .cls isDig .star]

/-- Pattern 0: `[\$\£\€\¥\₹]\s*[\d,]+\.?\d*`. -/
def pat0 : RPattern :=
  [[.cls curSym .one, .cls isWs .star] ++ amountAtoms]

/-- Pattern 1: `[\d,]+\.?\d*\s*[\$\£\€\¥\₹]`. -/
def pat1 : RPattern :=
  [amountAtoms ++ [.cls isWs .star, .cls curSym .one]]

/-- Pattern 2: `[\d,]+\.?\d*\s*USD|EUR|GBP|JPY|INR` — the alternation binds
the whole tail, so the ISO codes other than `USD` are bare alternatives. -/
def pat2 : RPattern :=
  [amountAtoms ++ [.cls isWs .star, .lit "USD" true],
   [.lit "EUR" true], [.lit "GBP" true], [.lit "JPY" true], [.lit "INR" true]]

/-- Pattern 3: `price[^\d]*[\$\£\€\¥\₹]?\s*[\d,]+\.?\d*`. -/
def pat3 : RPattern :=
  [[.lit "price" true, .cls notDig .star, .cls curSym .optional, .cls isWs .star] ++ amountAtoms]

/-- Pattern 4: `price[^\d]*[\d,]+\.?\d*\s*[\$\£\€\¥\₹]?`. -/
def pat4 : RPattern :=
  [[.lit "price" true, .cls notDig .star] ++ amountAtoms ++
   [.cls isWs .star, .cls curSym .optional]]

/-- Pattern 5 (the bare amount): `[\$\£\€\¥\₹]?[^\d]*[\d,]+\.?\d*`. -/
def pat5 : RPattern :=
  [[.cls curSym .optional, .cls notDig .star] ++ amountAtoms]

/-- Pattern 6: `cost[^\d]*[\$\£\€\¥\₹]?\s*[\d,]+\.?\d*`. -/
def pat6 : RPattern :=
  [[.lit "cost" true, .cls notDig .star, .cls curSym .optional, .cls isWs .star] ++ amountAtoms]

/-- Pattern 7: `[\d,]+\.?\d*\s*dollars|rupees|euros|pounds` (alternation at
top level, as in pattern 2). -/
def pat7 : RPattern :=
  [amountAtoms ++ [.cls isWs .star, .lit "dollars" true],
   [.lit "rupees" true], [.lit "euros" true], [.lit "pounds" true]]

/-- Pattern 8: `starting at\s*[\$\£\€\¥\₹]?\s*[\d,]+\.?\d*`. -/
def pat8 : RPattern :=
  [[.lit "starting at" true, .cls isWs .star, .cls curSym .optional, .cls isWs .star] ++ amountAtoms]

/-- Pattern 9: `from\s*[\$\£\€\¥\₹]?\s*[\d,]+\.?\d*`. -/
def pat9 : RPattern :=
  [[.lit "from" true, .cls isWs .star, .cls curSym .optional, .cls isWs .star] ++ amountAtoms]

/-- The list `PRICE_PATTERNS`, in source order: the bare-amount pattern sits at index
5, before `cost`/word-suffixed/`starting at`/`from`. -/
def PRICE_PATTERNS : List RPattern :=
  [pat0, pat1, pat2, pat3, pat4, pat5, pat6, pat7, pat8, pat9]

/-- The table `CURRENCY_MAP` (src/src/utils/google_custom_search.py:37-48), in dict
insertion order. -/
def CURRENCY_MAP : List (String × String) :=
  [("$", "USD"), ("£", "GBP"), ("€", "EUR"), ("¥", "JPY"), ("₹", "INR"),
   ("USD", "USD"), ("EUR", "EUR"), ("GBP", "GBP"), ("JPY", "JPY"), ("INR", "INR")]

/-! ## `is_likely_year_not_price` (src/src/utils/google_custom_search.py:65-102) -/

/-- The `year_patterns` list built around the candidate digits `p`
(`[Ee]dition`/`[Cc]ollection` are subsumed by `re.IGNORECASE` literals). -/
def yearPatterns (p : String) : List RPattern :=
  [[[.lit "since" true, .cls isWs .star, .lit p true]],
   [[.lit "est" true, .cls isDot .optional, .cls isWs .star, .lit p true]],
   [[.lit "established" true, .cls isWs .star, .lit p true]],
   [[.lit "founded" true, .cls isWs .star, .lit p true]],
   [[.lit p true, .cls isWs .star, .lit "®" true]],
   [[.lit "watches since " true, .lit p true]],
   [[.lit "since" true, .cls isWs .plus, .lit p true]],
   [[.lit "in" true, .cls isWs .plus, .lit p true]],
   [[.lit "from" true, .cls isWs .plus, .lit p true]],
   [[.lit p true, .cls isWs .plus, .lit "edition" true]],
   [[.lit p true, .cls isWs .plus, .lit "collection" true]]]

/-- Python `price_str.isdigit()`: non-empty and all digits (ASCII model). -/
def pyIsdigit (s : String) : Bool :=
  !s.data.isEmpty && s.data.all Char.isDigit

/-- Models `is_likely_year_not_price(price_str, text)`. -/
def is_likely_year_not_price (price_str text : String) : Bool :=
  if price_str = "" || !pyIsdigit price_str then false
  else
    let price_num := digitsToNat price_str.data
    if 1800 ≤ price_num ∧ price_num ≤ 2030 then
      if (yearPatterns price_str).any (fun pat => reSearch pat text.data) then true
      else if (price_num ∈ [1755, 1848, 1926, 1884, 1875, 1905]) ∧
              (strIn "watches" (pyLower text) || strIn "watch" (pyLower text)) then true
      else false
    else false

/-! ## `extract_price_from_text` (src/src/utils/google_custom_search.py:104-134) -/

/-- Drop trailing `'.'`/`','` characters (`price.rstrip('.,')`). -/
def rstripDotComma (l : List Char) : List Char :=
  (l.reverse.dropWhile (fun c => c = '.' || c = ',')).reverse

/-- The body of one iteration of the pattern loop: leftmost match of `pat`,
currency inference from `CURRENCY_MAP`, cleanup of the matched text, the
empty-price and year `continue`s.  `none` means "try the next pattern". -/
def tryPattern (pat : RPattern) (text : List Char) : Option (String × String) :=
  match findFirst pat text with
  | none => none
  | some price_str =>
    let currency :=
      ((CURRENCY_MAP.find? (fun e => subAt e.1.data price_str)).map (·.2)).getD ""
    let price := price_str.filter (fun c => c.isDigit || c = '.' || c = ',')
    let price := rstripDotComma price
    if price = [] then none
    else if is_likely_year_not_price (String.mk price) (String.mk text) then none
    else some (String.mk price, currency)

/-- The pattern loop of `extract_price_from_text` over an ordered list. -/
def extractLoop (pats : List RPattern) (text : List Char) : String × String :=
  match pats with
  | [] => ("", "")
  | pat :: rest =>
    match tryPattern pat text with
    | some r => r
    | none => extractLoop rest text

/-- Models `extract_price_from_text(text)`. -/
def extract_price_from_text (text : String) : String × String :=
  if text = "" then ("", "")
  else extractLoop PRICE_PATTERNS text.data

/-- The pattern order the SPEC states (spec.md §4.1 / claim C8): the
precision-ordered list with the bare-amount pattern as the last resort.  This
definition follows the spec's words, for comparison with the source-order
`PRICE_PATTERNS`. -/
def SPEC_ORDER_PATTERNS : List RPattern :=
  [pat0, pat1, pat2, pat3, pat4, pat6, pat7, pat8, pat9, pat5]

/-- The extractor the spec describes: same per-pattern behaviour, bare amount
tried last. -/
def extract_price_spec_order (text : String) : String × String :=
  if text = "" then ("", "")
  else extractLoop SPEC_ORDER_PATTERNS text.data

/-! ## JSON-ish values: Python dict/scalar values flowing through the
extraction code -/

mutual

/-- A Python/JSON value as handled by the extraction code. -/
inductive JVal where
  | jnull
  | jbool (b : Bool)
  | jnum (n : Int)
  | jstr (s : String)
  | jobj (o : JObj)

/-- A Python dict with string keys, in insertion order. -/
inductive JObj where
  | nil
  | cons (k : String) (v : JVal) (rest : JObj)

end

mutual

/-- Structural equality of values (Python `==`/hashing on JSON scalars). -/
def JVal.beq : JVal → JVal → Bool
  | .jnull, .jnull => true
  | .jbool a, .jbool b => a == b
  | .jnum a, .jnum b => a == b
  | .jstr a, .jstr b => a == b
  | .jobj a, .jobj b => JObj.beq a b
  | _, _ => false

/-- Structural equality of dicts. -/
def JObj.beq : JObj → JObj → Bool
  | .nil, .nil => true
  | .cons k v o, .cons k' v' o' => k == k' && JVal.beq v v' && JObj.beq o o'
  | _, _ => false

end

/-- Python `d.get(k)` / `d[k]` lookup. -/
def JObj.lookup : JObj → String → Option JVal
  | .nil, _ => none
  | .cons k v o, key => if k = key then some v else o.lookup key

/-- Python `k in d`. -/
def JObj.hasKey (o : JObj) (k : String) : Bool :=
  (o.lookup k).isSome

/-- Python `d[k] = v`: update in place when the key exists, else append. -/
def JObj.set : JObj → String → JVal → JObj
  | .nil, k, v => .cons k v .nil
  | .cons k' v' o, k, v =>
    if k' = k then .cons k' v o else .cons k' v' (o.set k v)

/-- Python truthiness of a value (`if not item["x"]`). -/
def JVal.falsy : JVal → Bool
  | .jnull => true
  | .jbool b => !b
  | .jnum n => n == 0
  | .jstr s => s == ""
  | .jobj .nil => true
  | .jobj (.cons _ _ _) => false

/-- Python `str(...)` of a scalar, used when wrapping a non-dict
`additionalInfo`.  The call sites guard out dicts and `None`, so the `jobj`
case is never reached there; it renders as an opaque token. -/
def pyStr : JVal → String
  | .jnull => "None"
  | .jbool b => if b then "True" else "False"
  | .jnum n => toString n
  | .jstr s => s
  | .jobj _ => "{}"

/-! ## `ProductRecord`: the canonical record of the pipeline stages
(routes.py / scraper_manager.py operate on dicts whose six primary fields the
adapters set to strings; `additionalInfo` is an optional nested dict). -/

structure ProductRecord where
  link : String
  price : String
  currency : String
  productName : String
  source : String
  imageUrl : String
  additionalInfo : Option JObj

/-! ## `estimate_price` (src/src/api/routes.py:23-63) -/

/-- The ordered keyword table of `estimate_price`: condition of the `i`-th
`elif` branch, on the lower-cased product name, the lower-cased source and
the raw query. -/
def ruleCond (i : Nat) (r : ProductRecord) (query : String) : Bool :=
  let n := pyLower r.productName
  let src := pyLower r.source
  match i with
  | 0 => strIn "apple watch" n || strIn "apple" src
  | 1 => strIn "garmin" n || strIn "garmin" src
  | 2 => strIn "amazfit" n || strIn "amazfit" src
  | 3 => strIn "fitbit" n || strIn "fitbit" src
  | 4 => ["omega", "tudor", "vacheron", "constantin", "luxury"].any (fun w => strIn w n)
  | 5 => strIn "smartwatch" n || strIn "smart watch" n || strIn "smartwatch" (pyLower query)
  | _ => false

/-- The flat price the `i`-th branch assigns. -/
def rulePrice : Nat → String
  | 0 => "399"
  | 1 => "299"
  | 2 => "149"
  | 3 => "199"
  | 4 => "2999"
  | 5 => "149"
  | _ => ""

/-- Models `product['additionalInfo'] = {}` when falsy, then
`product['additionalInfo']['priceEstimated'] = True`. -/
def setPriceEstimated (info : Option JObj) : JObj :=
  (info.getD .nil).set "priceEstimated" (.jbool true)

/-- Assign the estimated price and the `priceEstimated` marker. -/
def estimApply (r : ProductRecord) (p : String) : ProductRecord :=
  { r with price := p, additionalInfo := some (setPriceEstimated r.additionalInfo) }

/-- Models `estimate_price(product, query)`: no-op on a truthy (non-empty) price,
else the first matching branch of the keyword chain assigns its flat price
and the marker; no branch matching leaves the record unchanged. -/
def estimate_price (r : ProductRecord) (query : String) : ProductRecord :=
  if r.price ≠ "" then r
  else if ruleCond 0 r query then estimApply r (rulePrice 0)
  else if ruleCond 1 r query then estimApply r (rulePrice 1)
  else if ruleCond 2 r query then estimApply r (rulePrice 2)
  else if ruleCond 3 r query then estimApply r (rulePrice 3)
  else if ruleCond 4 r query then estimApply r (rulePrice 4)
  else if ruleCond 5 r query then estimApply r (rulePrice 5)
  else r

/-! ## The Ranker (src/src/api/routes.py:83-89)

`sorted(results, key=get_price_for_sorting)` — CPython's sort is stable, so
a stable insertion sort is its extensional model. -/

/-- Models `get_price_for_sorting(item)`: `float(price.replace(",", ""))`, `0` on
failure (the record model keeps `price` a string, so the `AttributeError`
branch for a `None` price coincides with the parse-failure branch). -/
def get_price_for_sorting (r : ProductRecord) : ℚ :=
  match pyFloatCore (r.price.data.filter (fun c => c ≠ ',')) with
  | some q => q
  | none => 0

/-- Stable insertion of `a` (arriving later) before the first element whose
key is `≥ key a`. -/
def pyInsert (key : ProductRecord → ℚ) (a : ProductRecord) :
    List ProductRecord → List ProductRecord
  | [] => [a]
  | b :: l => if key a ≤ key b then a :: b :: l else b :: pyInsert key a l

/-- Stable ascending sort by `key` (extensionally, CPython `sorted`). -/
def pySorted (key : ProductRecord → ℚ) : List ProductRecord → List ProductRecord
  | [] => []
  | a :: l => pyInsert key a (pySorted key l)

/-- The Ranker: `sorted(results, key=get_price_for_sorting)`. -/
def rankerSort (l : List ProductRecord) : List ProductRecord :=
  pySorted get_price_for_sorting l

/-! ## The scraper registry and the Orchestrator
(src/src/scraper/scraper_manager.py) -/

/-- A loaded scraper: its registry name and `supported_countries`. -/
structure Scraper where
  name : String
  supported_countries : List String
deriving DecidableEq

/-- The `AmazonScraper` registry entry (src/src/scraper/sites/amazon.py:15-16). -/
def amazonScraper : Scraper :=
  ⟨"amazon", ["US", "UK", "DE", "FR", "ES", "IT", "JP", "IN", "CA", "AU", "ALL"]⟩

/-- The `FlipkartScraper` registry entry (src/src/scraper/sites/flipkart.py:13-14). -/
def flipkartScraper : Scraper := ⟨"flipkart", ["IN"]⟩

/-- The `GenericAIScraper` registry entry (generic_ai_scraper.py:18-19). -/
def genericAIScraper : Scraper := ⟨"generic_ai", ["ALL"]⟩

/-- The `GoogleCustomSearchScraper` entry (scraper_manager.py:100-102),
appended to the registry after the dynamically loaded site scrapers. -/
def googleCSScraper : Scraper := ⟨"google_custom_search", ["ALL"]⟩

/-- The registry `self.scrapers.values()` in insertion order (the site files
load in directory order `amazon, flipkart, generic_ai_scraper`; the Google
scraper is added last). -/
def loadedScrapers : List Scraper :=
  [amazonScraper, flipkartScraper, genericAIScraper, googleCSScraper]

/-- The country filter of `get_relevant_scrapers`:
`country.upper() in [c.upper() for c in scraper.supported_countries]`. -/
def countryMatch (country : String) (s : Scraper) : Bool :=
  (s.supported_countries.map pyUpper).contains (pyUpper country)

/-- Models `ScraperManager.get_relevant_scrapers(country)`. -/
def get_relevant_scrapers (scrapers : List Scraper) (country : String) : List Scraper :=
  scrapers.filter (fun s => countryMatch country s)

/-- The selection phase of `ScraperManager.search_products`: the relevant
scrapers, or — only when none — the scrapers listing the literal `"ALL"`. -/
def select_scrapers (scrapers : List Scraper) (country : String) : List Scraper :=
  let rel := get_relevant_scrapers scrapers country
  if rel.isEmpty then scrapers.filter (fun s => s.supported_countries.contains "ALL")
  else rel

/-- The outcome of one scraper's `search` task under
`asyncio.gather(..., return_exceptions=True)`: a raised exception or a
result list. -/
inductive Outcome where
  | exn (msg : String)
  | ok (records : List ProductRecord)

/-- The merge loop of `ScraperManager.search_products` (lines 89-97):
exceptions are skipped, lists are concatenated in task order. -/
def processResults : List Outcome → List ProductRecord
  | [] => []
  | .exn _ :: rest => processResults rest
  | .ok l :: rest => l ++ processResults rest

/-- The per-request environment: what each network-bound search returns.
`googleSearch query country` abstracts `search_products_google`;
`scraperSearch name country query` abstracts the other adapters'
`search`.  An `Outcome.exn` models a raised exception. -/
structure PipelineEnv where
  googleSearch : String → String → Outcome
  scraperSearch : String → String → String → Outcome

/-- One scraper's task: `GoogleCustomSearchScraper.search` catches every
exception of `search_products_google` and returns `[]`
(scraper_manager.py:103-108); other scrapers run their own `search`. -/
def scraperRun (env : PipelineEnv) (country query : String) (s : Scraper) : Outcome :=
  if s.name = "google_custom_search" then
    match env.googleSearch query country with
    | .exn _ => .ok []
    | .ok l => .ok l
  else env.scraperSearch s.name country query

/-- Models `ScraperManager.search_products(country, query)`: select, dispatch (in
registry order, preserved by `gather`), merge.  Total by construction: no
exception propagates. -/
def manager_search_products (env : PipelineEnv) (country query : String) :
    List ProductRecord :=
  let sel := select_scrapers loadedScrapers country
  if sel.isEmpty then []
  else processResults (sel.map (scraperRun env country query))

/-! ## The request boundary (src/src/api/routes.py:65-95)

`search_products` calls `search_products_google` directly — not the
`ScraperManager` — then estimates and sorts.  An uncaught exception becomes
an HTTP 500 (`Except.error`). -/

def search_products_endpoint (env : PipelineEnv) (country query : String) :
    Except String (List ProductRecord) :=
  match env.googleSearch query country with
  | .exn e => .error e
  | .ok results =>
    if results.isEmpty then .ok []
    else .ok (rankerSort (results.map (fun item => estimate_price item query)))

/-! ## Country-sensitive leaf functions for claim C10 -/

/-- The country short-circuit of `FlipkartScraper.search`
(flipkart.py:39-41): `country.upper() != "IN"` returns `[]` before any
fetch. -/
def flipkart_short_circuits (country : String) : Bool :=
  pyUpper country != "IN"

/-- The table `COUNTRY_CURRENCY` (google_custom_search.py:51-63). -/
def COUNTRY_CURRENCY : List (String × String) :=
  [("us", "USD"), ("uk", "GBP"), ("gb", "GBP"), ("de", "EUR"), ("fr", "EUR"),
   ("it", "EUR"), ("es", "EUR"), ("jp", "JPY"), ("in", "INR"), ("ca", "CAD"),
   ("au", "AUD")]

/-- Models `COUNTRY_CURRENCY.get(country.lower(), 'USD')`
(google_custom_search.py:144-145). -/
def google_default_currency (country : String) : String :=
  ((COUNTRY_CURRENCY.find? (fun e => e.1 == pyLower country)).map (·.2)).getD "USD"

/-- Two strings that differ only in letter case agree after both case
foldings (ASCII). -/
def caseVariant (c c' : String) : Prop :=
  pyUpper c = pyUpper c' ∧ pyLower c = pyLower c'

/-! ## Result construction in `search_products_google`
(src/src/utils/google_custom_search.py:237-257) -/

/-- The six primary field names, in the order of the coercion loop at
lines 252-255. -/
def sixKeys : List String :=
  ["link", "price", "currency", "productName", "source", "imageUrl"]

/-- One step of `if result[k] is None: result[k] = ''`. -/
def coerceNullKey (o : JObj) (k : String) : JObj :=
  match o.lookup k with
  | some .jnull => o.set k (.jstr "")
  | _ => o

/-- The `result = {...}` literal of lines 237-250 followed by the
string-coercion loop of lines 252-255.  The six component values are the
locals computed by the surrounding extraction code (each may be any value,
`None` included); `addl` is the `additionalInfo` dict literal. -/
def googleBuildResult (link price currency productName source imageUrl : JVal)
    (addl : JVal) : JObj :=
  let r : JObj :=
    .cons "link" link (.cons "price" price (.cons "currency" currency
      (.cons "productName" productName (.cons "source" source
        (.cons "imageUrl" imageUrl (.cons "additionalInfo" addl .nil))))))
  sixKeys.foldl coerceNullKey r

/-! ## `extract_with_gemini` item handling
(src/src/utils/google_custom_search.py:338-352) -/

/-- Models `if field not in item: item[field] = ""` — presence only; an explicit
`null` value is left as is. -/
def ensureStrField (o : JObj) (k : String) : JObj :=
  if o.hasKey k then o else o.set k (.jstr "")

/-- Lines 340-352: keep dict items having a `link` key; ensure the five
required fields, `imageUrl` and `additionalInfo` exist. -/
def geminiProcessItem : JVal → Option JObj
  | .jobj o =>
    if o.hasKey "link" then
      let o := ["productName", "price", "currency", "link", "source"].foldl ensureStrField o
      let o := if o.hasKey "imageUrl" then o else o.set "imageUrl" (.jstr "")
      let o := if o.hasKey "additionalInfo" then o else o.set "additionalInfo" (.jobj .nil)
      some o
    else none
  | _ => none

/-- The accepted Gemini items, in order, from the parsed JSON array (a
non-array parse yields `[]` upstream). -/
def extract_with_gemini_items (parsed : List JVal) : List JObj :=
  parsed.filterMap geminiProcessItem

/-- The merge at lines 268-273: append Gemini items whose `link` was not
seen, tracking seen links.  (A record without a `link` key would raise in the
source and abort the merge; Google-path records always carry the key.) -/
def mergeGeminiLoop (seen : List JVal) : List JObj → List JObj
  | [] => []
  | r :: rest =>
    let lk := (r.lookup "link").getD .jnull
    if seen.any (fun v => JVal.beq v lk) then mergeGeminiLoop seen rest
    else r :: mergeGeminiLoop (lk :: seen) rest

/-- The `search_products_google` final result list once the Gemini branch ran:
the structured results plus the deduplicated Gemini items. -/
def mergeGeminiResults (results gemini : List JObj) : List JObj :=
  results ++ mergeGeminiLoop (results.filterMap (fun r => r.lookup "link")) gemini

/-! ## The AI-extraction item loops of the site adapters -/

/-- Models `url.split("//")[1].split("/")[0]` (amazon.py:262). -/
def urlHost (url : String) : String :=
  ((pySplit ((pySplit url "//").getD 1 "") "/").getD 0 "")

/-- The `additionalInfo` repair shared by the adapters: a present, non-dict,
non-null value is wrapped as `{"info": str(value)}`. -/
def fixAdditionalInfo (o : JObj) : JObj :=
  match o.lookup "additionalInfo" with
  | some (.jobj _) => o
  | some .jnull => o
  | none => o
  | some v => o.set "additionalInfo" (.jobj (.cons "info" (.jstr (pyStr v)) .nil))

/-- The five-field coercion of the adapters' loops: a present `None` becomes
`""`, a missing field is created as `""`. -/
def coerceFiveFields (o : JObj) : JObj :=
  ["link", "price", "currency", "productName", "imageUrl"].foldl
    (fun o k =>
      match o.lookup k with
      | some .jnull => o.set k (.jstr "")
      | none => o.set k (.jstr "")
      | some _ => o) o

/-- One item of `AmazonScraper._extract_with_ai`'s loop (amazon.py:260-275):
kept iff it is a dict with `productName` and `price` keys; `source` is set
from the page URL; no cap is applied by the loop. -/
def amazonValidateItem (url : String) : JVal → Option JObj
  | .jobj o =>
    if o.hasKey "productName" && o.hasKey "price" then
      let o := o.set "source" (.jstr (urlHost url))
      let o := fixAdditionalInfo o
      let o := coerceFiveFields o
      some o
    else none
  | _ => none

/-- Models `AmazonScraper._extract_with_ai` on the parsed JSON array: every valid
item is appended — the loop has no 5-item cap. -/
def amazonExtractItems (url : String) (parsed : List JVal) : List JObj :=
  parsed.filterMap (amazonValidateItem url)

/-- One item of `FlipkartScraper._extract_with_ai`'s loop
(flipkart.py:149-166): like Amazon's, with `source = "Flipkart"` and a
default currency `"INR"` for a missing currency key. -/
def flipkartValidateItem : JVal → Option JObj
  | .jobj o =>
    if o.hasKey "productName" && o.hasKey "price" then
      let o := o.set "source" (.jstr "Flipkart")
      let o := if o.hasKey "currency" then o else o.set "currency" (.jstr "INR")
      let o := fixAdditionalInfo o
      let o := coerceFiveFields o
      some o
    else none
  | _ => none

/-- Models `FlipkartScraper._extract_with_ai` on the parsed JSON array: no cap. -/
def flipkartExtractItems (parsed : List JVal) : List JObj :=
  parsed.filterMap flipkartValidateItem

/-! ## `GenericAIScraper._extract_with_ai`
(src/src/scraper/sites/generic_ai_scraper.py:204-301) -/

/-- The table `PRODUCT_URL_PATTERNS` (generic_ai_scraper.py:76-81), with the regexes
compiled into the engine (`re.search` here is case-sensitive). -/
def PRODUCT_URL_PATTERNS : List (String × RPattern) :=
  [("amazon.in", [[.lit "/dp/" false], [.lit "/gp/product/" false]]),
   ("flipkart.com", [[.lit "/p/" false], [.lit "/product/" false], [.lit "/search?q=" false]]),
   ("myntra.com", [[.lit "/buy" false], [.lit "/" false, .cls isDig (.atLeast 6), .lit "/buy" false]]),
   ("snapdeal.com", [[.lit "/product/" false], [.lit "/search?" false]])]

/-- The configured URL pattern for a domain, if any. -/
def productUrlPatternFor (domain : String) : Option RPattern :=
  ((PRODUCT_URL_PATTERNS.find? (fun e => e.1 == domain)).map (·.2))

/-- The string value of a field for `.lower()`/`in` tests; adapters' accepted
items hold strings in these fields (a non-string would raise in the source and
abort the whole fallback). -/
def jstrOf (v : Option JVal) : String :=
  match v with
  | some (.jstr s) => s
  | _ => ""

/-- One item of the generic loop, lines 209-256: name check, link
absolutisation, source default, price cleaning, `additionalInfo` repair,
five-field coercion, then the link/price, domain, URL-pattern and liveness
(`probe`, the HEAD request) rejections. -/
def genericValidateItem (probe : String → Bool) (website domain : String)
    (urlPat : Option RPattern) : JVal → Option JObj
  | .jobj o =>
    if !o.hasKey "productName" || ((o.lookup "productName").getD .jnull).falsy then none
    else
      let o :=
        match o.lookup "link" with
        | some (.jstr s) =>
          if s ≠ "" && !(pyStartsWith s "http://" || pyStartsWith s "https://") then
            if pyStartsWith s "/" then o.set "link" (.jstr ("https://www." ++ website ++ s))
            else o.set "link" (.jstr ("https://www." ++ website ++ "/" ++ s))
          else o
        | _ => o
      let o := if o.hasKey "source" then o else o.set "source" (.jstr website)
      let o :=
        match o.lookup "price" with
        | some (.jstr s) => if s ≠ "" then o.set "price" (.jstr (clean_price s)) else o
        | _ => o
      let o := fixAdditionalInfo o
      let o := coerceFiveFields o
      if ((o.lookup "link").getD .jnull).falsy || ((o.lookup "price").getD .jnull).falsy then none
      else if !strIn domain (pyLower (jstrOf (o.lookup "link"))) then none
      else
        match urlPat with
        | some pat =>
          if !reSearch pat (jstrOf (o.lookup "link")).data then none
          else if !probe (jstrOf (o.lookup "link")) then none
          else some o
        | none =>
          if !probe (jstrOf (o.lookup "link")) then none
          else some o
  | _ => none

/-- The capped acceptance loop (lines 208-259): append each valid item and
stop as soon as five are accepted. -/
def genericAcceptLoop (validate : JVal → Option JObj) :
    List JVal → List JObj → List JObj
  | [], acc => acc
  | it :: rest, acc =>
    match validate it with
    | none => genericAcceptLoop validate rest acc
    | some v =>
      let acc' := acc ++ [v]
      if 5 ≤ acc'.length then acc' else genericAcceptLoop validate rest acc'

/-- The BeautifulSoup link-harvester fallback (lines 260-299): for each
anchor `(href, name)`, domain check, dedup by href, URL-pattern check, name
check, liveness probe; capped at five. -/
def genericSoupLoop (website domain : String) (urlPat : Option RPattern)
    (probe : String → Bool) :
    List (String × String) → List String → List JObj → List JObj
  | [], _, acc => acc
  | (href, nameText) :: rest, seen, acc =>
    if !strIn domain href then genericSoupLoop website domain urlPat probe rest seen acc
    else if seen.contains href then genericSoupLoop website domain urlPat probe rest seen acc
    else
      let seen' := href :: seen
      if (urlPat.map (fun pat => !reSearch pat href.data)).getD false then
        genericSoupLoop website domain urlPat probe rest seen' acc
      else if nameText = "" then genericSoupLoop website domain urlPat probe rest seen' acc
      else
        let link :=
          if pyStartsWith href "http" then href
          else if pyStartsWith href "/" then "https://" ++ domain ++ href
          else "https://" ++ domain ++ "/" ++ href
        if !probe link then genericSoupLoop website domain urlPat probe rest seen' acc
        else
          let rec' : JObj :=
            .cons "link" (.jstr link) (.cons "price" (.jstr "")
              (.cons "currency" (.jstr "") (.cons "productName" (.jstr nameText)
                (.cons "source" (.jstr website) (.cons "imageUrl" (.jstr "")
                  (.cons "additionalInfo" .jnull .nil))))))
          let acc' := acc ++ [rec']
          if 5 ≤ acc'.length then acc'
          else genericSoupLoop website domain urlPat probe rest seen' acc'

/-- Models `GenericAIScraper._extract_with_ai` after a successful JSON parse: the
capped AI-acceptance loop, falling back to the capped link harvester when it
accepted nothing.  `anchors` abstracts the page's `<a href>` elements (href,
derived name). -/
def genericExtractItems (probe : String → Bool) (website : String)
    (parsed : List JVal) (anchors : List (String × String)) : List JObj :=
  let domain := pyReplace (pyLower website) "www." ""
  let urlPat := productUrlPatternFor domain
  let accepted := genericAcceptLoop (genericValidateItem probe website domain urlPat) parsed []
  if accepted.isEmpty then genericSoupLoop website domain urlPat probe anchors [] []
  else accepted

/-! ## Helper lemmas -/

/-- Setting a key stores its value. -/
theorem JObj.lookup_set_self : ∀ (o : JObj) (k : String) (v : JVal),
    (o.set k v).lookup k = some v
  | .nil, k, v => by simp [JObj.set, JObj.lookup]
  | .cons k' v' o, k, v => by
    by_cases h : k' = k
    · simp [JObj.set, JObj.lookup, h]
    · simp [JObj.set, JObj.lookup, h, JObj.lookup_set_self o k v]

/-- Setting a key leaves other keys untouched. -/
theorem JObj.lookup_set_ne : ∀ (o : JObj) (k k' : String) (v : JVal),
    k' ≠ k → (o.set k v).lookup k' = o.lookup k'
  | .nil, k, k', v, h => by
    have hk : (k = k') = False := eq_false (fun hkk => h hkk.symm)
    simp [JObj.set, JObj.lookup, hk]
  | .cons k₀ v₀ o, k, k', v, h => by
    by_cases h0 : k₀ = k
    · subst h0
      have hk : (k₀ = k') = False := eq_false (fun hkk => h hkk.symm)
      simp [JObj.set, JObj.lookup, hk]
    · by_cases h1 : k₀ = k'
      · simp [JObj.set, JObj.lookup, h0, h1, h]
      · simp [JObj.set, JObj.lookup, h0, h1, JObj.lookup_set_ne o k k' v h]

/-- Insertion permutes: `pyInsert` only reorders. -/
theorem pyInsert_perm (key : ProductRecord → ℚ) (a : ProductRecord)
    (l : List ProductRecord) : List.Perm (pyInsert key a l) (a :: l) := by
  induction l with
  | nil => simp [pyInsert]
  | cons b t ih =>
    by_cases h : key a ≤ key b
    · simp [pyInsert, h]
    · simp only [pyInsert, h, if_false]
      exact (ih.cons b).trans (List.Perm.swap a b t)

/-- The Ranker permutes its input. -/
theorem pySorted_perm (key : ProductRecord → ℚ) (l : List ProductRecord) :
    List.Perm (pySorted key l) l := by
  induction l with
  | nil => simp [pySorted]
  | cons a t ih =>
    exact (pyInsert_perm key a (pySorted key t)).trans (ih.cons a)

/-- Membership in `pyInsert`. -/
theorem pyInsert_mem (key : ProductRecord → ℚ) (a x : ProductRecord)
    (l : List ProductRecord) : x ∈ pyInsert key a l ↔ x = a ∨ x ∈ l := by
  rw [(pyInsert_perm key a l).mem_iff, List.mem_cons]

/-- Insertion preserves ascending-key pairwise order. -/
theorem pyInsert_pairwise (key : ProductRecord → ℚ) (a : ProductRecord)
    (l : List ProductRecord)
    (h : l.Pairwise (fun x y => key x ≤ key y)) :
    (pyInsert key a l).Pairwise (fun x y => key x ≤ key y) := by
  induction l with
  | nil => simp [pyInsert]
  | cons b t ih =>
    rcases List.pairwise_cons.mp h with ⟨hb, ht⟩
    by_cases hab : key a ≤ key b
    · simp only [pyInsert, hab, if_true]
      refine List.pairwise_cons.mpr ⟨?_, h⟩
      intro x hx
      rcases List.mem_cons.mp hx with hx | hx
      · exact hx ▸ hab
      · exact le_trans hab (hb x hx)
    · simp only [pyInsert, hab, if_false]
      refine List.pairwise_cons.mpr ⟨?_, ih ht⟩
      intro x hx
      rcases (pyInsert_mem key a x t).mp hx with hx | hx
      · exact hx ▸ le_of_lt (lt_of_not_le hab)
      · exact hb x hx

/-- The Ranker's output is ascending in the key. -/
theorem pySorted_pairwise (key : ProductRecord → ℚ) (l : List ProductRecord) :
    (pySorted key l).Pairwise (fun x y => key x ≤ key y) := by
  induction l with
  | nil => simp [pySorted]
  | cons a t ih => exact pyInsert_pairwise key a (pySorted key t) ih

/-- Inserting `a` does not disturb the subsequence of any fixed key value
other than by adding `a` in front of its own class. -/
theorem pyInsert_filter_key (key : ProductRecord → ℚ) (a : ProductRecord)
    (l : List ProductRecord) (q : ℚ) :
    (pyInsert key a l).filter (fun x => decide (key x = q)) =
      if key a = q then a :: l.filter (fun x => decide (key x = q))
      else l.filter (fun x => decide (key x = q)) := by
  induction l with
  | nil =>
    by_cases h : key a = q <;> simp [pyInsert, h]
  | cons b t ih =>
    simp only [pyInsert]
    by_cases hab : key a ≤ key b
    · rw [if_pos hab]
      by_cases h : key a = q <;>
        simp [List.filter_cons, h]
    · rw [if_neg hab]
      have hba : key b < key a := lt_of_not_le hab
      by_cases h : key a = q
      · have hbq : ¬ key b = q := by
          intro hbq
          exact absurd (h ▸ hbq : key b = key a) (ne_of_lt hba)
        simp [List.filter_cons, h, hbq, ih]
      · by_cases hbq : key b = q <;>
          simp [List.filter_cons, h, hbq, ih]

/-- Stability: the Ranker preserves the original relative order within every
equal-key class. -/
theorem pySorted_filter_key (key : ProductRecord → ℚ) (l : List ProductRecord)
    (q : ℚ) :
    (pySorted key l).filter (fun x => decide (key x = q)) =
      l.filter (fun x => decide (key x = q)) := by
  induction l with
  | nil => simp [pySorted]
  | cons a t ih =>
    by_cases h : key a = q <;>
      simp [pySorted, pyInsert_filter_key, h, List.filter_cons, ih]

/-! ## Claim C3 — Orchestrator fault isolation -/

/-- C3: if one selected adapter's `search` raises, the Orchestrator's merged
result equals the concatenation, in adapter-iteration order, of the other
adapters' successful result lists; the failing adapter contributes zero
records.  (`processResults` is the merge loop of
`ScraperManager.search_products`; `manager_search_products` is total, so no
exception propagates — `asyncio.gather(..., return_exceptions=True)` turns a
raise into an `Outcome.exn`, which the loop drops.) -/
theorem orchestrator_fault_isolation (pre post : List Outcome) (e : String) :
    processResults (pre ++ Outcome.exn e :: post) =
      processResults pre ++ processResults post := by
  induction pre with
  | nil => simp [processResults]
  | cons o rest ih =>
    cases o with
    | exn m => simpa [processResults] using ih
    | ok l => simp [processResults, ih]

/-! ## Claim C4 — the Ranker -/

/-- Concrete record with the given price, for the claim's example. -/
def c4rec (p nm : String) : ProductRecord := ⟨"", p, "", nm, "", "", none⟩

/-- C4: the Ranker (`sorted(results, key=get_price_for_sorting)`) sorts
stably ascending by the key "parse the comma-stripped price as a float, `0`
on failure": the output is a permutation of the input, pairwise ascending in
the key, every equal-key class keeps its original relative order, and the
example with prices `["299", "abc", "", "149"]` comes out in the order
`"abc", "", "149", "299"`. -/
theorem ranker_stable_ascending_sort :
    (∀ l : List ProductRecord,
        List.Perm (rankerSort l) l ∧
        (rankerSort l).Pairwise
          (fun a b => get_price_for_sorting a ≤ get_price_for_sorting b) ∧
        ∀ q : ℚ,
          (rankerSort l).filter (fun r => decide (get_price_for_sorting r = q)) =
            l.filter (fun r => decide (get_price_for_sorting r = q))) ∧
    (rankerSort [c4rec "299" "A", c4rec "abc" "B", c4rec "" "C", c4rec "149" "D"]).map
        ProductRecord.price = ["abc", "", "149", "299"] := by
  refine ⟨fun l => ⟨pySorted_perm _ l, pySorted_pairwise _ l,
    fun q => pySorted_filter_key _ l q⟩, ?_⟩
  with_unfolding_all rfl

/-! ## Claim C10 — case-insensitive country handling -/

/-- C10: the three country-sensitive leaf computations agree on any two
country strings that differ only in letter case: the Orchestrator's adapter
selection, the Flipkart short-circuit, and the Google default-currency
lookup. -/
theorem country_handling_case_insensitive (scrapers : List Scraper)
    (c c' : String) (h : caseVariant c c') :
    select_scrapers scrapers c = select_scrapers scrapers c' ∧
    flipkart_short_circuits c = flipkart_short_circuits c' ∧
    google_default_currency c = google_default_currency c' := by
  obtain ⟨hU, hL⟩ := h
  refine ⟨?_, ?_, ?_⟩
  · simp only [select_scrapers, get_relevant_scrapers, countryMatch, hU]
  · simp only [flipkart_short_circuits, hU]
  · simp only [google_default_currency, hL]

/-- Witness for C10 at `"in"` / `"In"`. -/
theorem country_handling_case_insensitive_witness :
    select_scrapers loadedScrapers "in" = select_scrapers loadedScrapers "In" ∧
    flipkart_short_circuits "in" = flipkart_short_circuits "In" ∧
    google_default_currency "in" = google_default_currency "In" :=
  country_handling_case_insensitive loadedScrapers "in" "In" ⟨by decide, by decide⟩

/-! ## Claim C2 — adapter selection -/

/-- C2 counterexample: `GenericAIScraper` supports exactly `["ALL"]` and is
loaded, yet it is NOT selected for country `"US"` — the first selection stage
matches only the literal country, so a wildcard-only adapter is not selected
whenever any adapter lists the country; the claim's "selected for every
requested country" fails at `"US"`. -/
theorem select_scrapers_wildcard_counterexample :
    genericAIScraper.supported_countries = ["ALL"] ∧
    genericAIScraper ∈ loadedScrapers ∧
    genericAIScraper ∉ select_scrapers loadedScrapers "US" ∧
    (select_scrapers loadedScrapers "US").map Scraper.name = ["amazon"] := by
  decide

/-- C2 (amended): the Orchestrator selects exactly the adapters whose
`supported_countries` contains the requested country literally
(case-insensitively); only when no adapter matches does it fall back to the
adapters listing the literal wildcard `"ALL"`; a wildcard-only adapter is
therefore selected only through that fallback (or when the requested country
is itself `"ALL"`). -/
theorem select_scrapers_characterisation (scrapers : List Scraper)
    (country : String) (s : Scraper) :
    s ∈ select_scrapers scrapers country ↔
      ((s ∈ scrapers ∧ countryMatch country s = true) ∨
       ((∀ t ∈ scrapers, countryMatch country t = false) ∧ s ∈ scrapers ∧
        s.supported_countries.contains "ALL" = true)) := by
  unfold select_scrapers
  by_cases h : (get_relevant_scrapers scrapers country).isEmpty
  · have hnil : ∀ t ∈ scrapers, countryMatch country t = false := by
      have := List.isEmpty_iff.mp h
      unfold get_relevant_scrapers at this
      intro t ht
      exact Bool.not_eq_true _ ▸ (List.filter_eq_nil_iff.mp this t ht)
    rw [if_pos h]
    simp only [List.mem_filter]
    constructor
    · rintro ⟨hs, hall⟩
      exact Or.inr ⟨hnil, hs, hall⟩
    · rintro (⟨hs, hm⟩ | ⟨_, hs, hall⟩)
      · exact absurd hm (by simp [hnil s hs])
      · exact ⟨hs, hall⟩
  · rw [if_neg h]
    unfold get_relevant_scrapers
    simp only [List.mem_filter]
    constructor
    · rintro ⟨hs, hm⟩
      exact Or.inl ⟨hs, hm⟩
    · rintro (⟨hs, hm⟩ | ⟨hnone, hs, _⟩)
      · exact ⟨hs, hm⟩
      · exact absurd (List.isEmpty_iff.mpr
          (List.filter_eq_nil_iff.mpr (fun t ht => by simp [hnone t ht])))
          h

/-- Witness for C2's amended characterisation at the loaded registry,
country `"IN"`, adapter Flipkart. -/
theorem select_scrapers_characterisation_witness :
    flipkartScraper ∈ select_scrapers loadedScrapers "IN" :=
  (select_scrapers_characterisation loadedScrapers "IN" flipkartScraper).mpr
    (Or.inl ⟨by decide, by decide⟩)

/-! ## Claim C1 — the request boundary versus the Orchestrator pipeline -/

/-- A record an adapter other than Google could return. -/
def garminRec : ProductRecord :=
  ⟨"https://www.amazon.com/gf55", "199.99", "USD", "Garmin Forerunner 55",
   "Amazon US", "", none⟩

/-- An environment where the Google source finds nothing but the Amazon
adapter returns one record. -/
def envC1 : PipelineEnv :=
  { googleSearch := fun _ _ => .ok []
    scraperSearch := fun nm _ _ => if nm = "amazon" then .ok [garminRec] else .ok [] }

/-- C1 counterexample: the endpoint's result is NOT
`Ranker(Estimator(Orchestrator.run(country, query)))` — with the Google
source empty and the Amazon adapter returning a record, the endpoint answers
`[]` while the Orchestrator pipeline answers `[garminRec]`: the endpoint
consults only the single Google source. -/
theorem endpoint_is_not_orchestrator_pipeline :
    search_products_endpoint envC1 "US" "garmin watch" ≠
      .ok (rankerSort ((manager_search_products envC1 "US" "garmin watch").map
        (fun r => estimate_price r "garmin watch"))) := by
  intro h
  have h1 : search_products_endpoint envC1 "US" "garmin watch" =
      .ok ([] : List ProductRecord) := rfl
  have h2 : rankerSort ((manager_search_products envC1 "US" "garmin watch").map
      (fun r => estimate_price r "garmin watch")) = [garminRec] := rfl
  rw [h1, h2] at h
  injection h with h
  exact List.noConfusion h

/-- C1 (amended): the request boundary invokes only the Google Custom Search
source.  Its result is fully determined by that source — two environments
agreeing on `search_products_google` agree on the endpoint, whatever the
other adapters (and hence the Orchestrator pipeline) would return — and on a
successful Google call the endpoint returns
`Ranker(Estimator(google results))`. -/
theorem endpoint_single_source (env env' : PipelineEnv) (country query : String) :
    (env.googleSearch = env'.googleSearch →
      search_products_endpoint env country query =
        search_products_endpoint env' country query) ∧
    (∀ l : List ProductRecord,
      env.googleSearch query country = .ok l →
      search_products_endpoint env country query =
        .ok (if l.isEmpty then []
             else rankerSort (l.map (fun item => estimate_price item query)))) := by
  constructor
  · intro h
    unfold search_products_endpoint
    rw [h]
  · intro l h
    unfold search_products_endpoint
    rw [h]
    by_cases hl : l.isEmpty <;> simp [hl]

/-- Witness for C1's amended statement: two environments differing only in
the Amazon adapter yield the same endpoint answer, and a concrete successful
Google call yields the Ranker∘Estimator image. -/
theorem endpoint_single_source_witness :
    search_products_endpoint envC1 "US" "garmin watch" =
      search_products_endpoint
        { envC1 with scraperSearch := fun _ _ _ => .ok [] } "US" "garmin watch" ∧
    search_products_endpoint envC1 "US" "garmin watch" =
      .ok (if ([] : List ProductRecord).isEmpty then []
           else rankerSort (([] : List ProductRecord).map
             (fun item => estimate_price item "garmin watch"))) :=
  ⟨(endpoint_single_source envC1
      { envC1 with scraperSearch := fun _ _ _ => .ok [] } "US" "garmin watch").1 rfl,
   (endpoint_single_source envC1
      { envC1 with scraperSearch := fun _ _ _ => .ok [] } "US" "garmin watch").2 [] rfl⟩

/-! ## Claim C6 — the Price Estimator -/

/-- C6: a record with a truthy (non-empty) price passes through unchanged;
for an empty price, the first matching branch of the ordered keyword table
assigns its flat price, sets `additionalInfo.priceEstimated = true` (creating
`additionalInfo` when absent or falsy) and leaves `currency` untouched. -/
theorem estimate_price_first_rule (r : ProductRecord) (q : String) :
    (r.price ≠ "" → estimate_price r q = r) ∧
    (∀ i, i < 6 → r.price = "" → ruleCond i r q = true →
      (∀ j, j < i → ruleCond j r q = false) →
      (estimate_price r q).price = rulePrice i ∧
      ((estimate_price r q).additionalInfo.getD .nil).lookup "priceEstimated" =
        some (.jbool true) ∧
      (estimate_price r q).currency = r.currency) := by
  constructor
  · intro h
    simp [estimate_price, h]
  · intro i hi hp hc hprev
    have hABC : ∀ res : ProductRecord, res = estimApply r (rulePrice i) →
        res.price = rulePrice i ∧
        (res.additionalInfo.getD .nil).lookup "priceEstimated" =
          some (.jbool true) ∧
        res.currency = r.currency := by
      rintro res rfl
      refine ⟨rfl, ?_, rfl⟩
      simp [estimApply, setPriceEstimated, JObj.lookup_set_self]
    interval_cases i
    · exact hABC _ (by simp [estimate_price, hp, hc])
    · exact hABC _ (by
        simp [estimate_price, hp, hc, hprev 0 (by omega)])
    · exact hABC _ (by
        simp [estimate_price, hp, hc, hprev 0 (by omega), hprev 1 (by omega)])
    · exact hABC _ (by
        simp [estimate_price, hp, hc, hprev 0 (by omega), hprev 1 (by omega),
          hprev 2 (by omega)])
    · exact hABC _ (by
        simp [estimate_price, hp, hc, hprev 0 (by omega), hprev 1 (by omega),
          hprev 2 (by omega), hprev 3 (by omega)])
    · exact hABC _ (by
        simp [estimate_price, hp, hc, hprev 0 (by omega), hprev 1 (by omega),
          hprev 2 (by omega), hprev 3 (by omega), hprev 4 (by omega)])

/-- The claim's example record. -/
def appleRec : ProductRecord := ⟨"", "", "", "Apple Watch SE", "some-store", "", none⟩

/-- Witness for C6: `{productName: "Apple Watch SE", price: "", source:
"some-store"}` with query `"apple watch"` gets price `"399"`,
`priceEstimated = true`, currency untouched. -/
theorem estimate_price_first_rule_witness :
    (estimate_price appleRec "apple watch").price = "399" ∧
    ((estimate_price appleRec "apple watch").additionalInfo.getD .nil).lookup
      "priceEstimated" = some (.jbool true) ∧
    (estimate_price appleRec "apple watch").currency = appleRec.currency :=
  (estimate_price_first_rule appleRec "apple watch").2 0 (by omega) rfl
    (by decide) (fun j hj => absurd hj (by omega))

/-! ## Claim C5 — the six primary fields of returned records -/

/-- Lookup through one `None → ""` coercion step. -/
theorem lookup_coerceNullKey (o : JObj) (k k' : String) :
    (coerceNullKey o k).lookup k' =
      if k' = k then
        (match o.lookup k with
         | some .jnull => some (.jstr "")
         | x => x)
      else o.lookup k' := by
  unfold coerceNullKey
  by_cases hk : k' = k
  · subst hk
    cases h : o.lookup k' with
    | none => simp [h]
    | some v => cases v <;> simp [h, JObj.lookup_set_self]
  · cases h : o.lookup k with
    | none => simp [h, hk]
    | some v => cases v <;> simp [h, hk, JObj.lookup_set_ne _ _ _ _ hk]

/-- A Gemini item with an explicit `null` price: the presence check lets the
`null` through. -/
def geminiNullPriceItem : JVal :=
  .jobj (.cons "link" (.jstr "https://example.com/p")
    (.cons "price" .jnull (.cons "productName" (.jstr "X") .nil)))

/-- C5 counterexample: a record produced by the Gemini extraction merge path
and returned to the caller carries `price = null` — the Gemini loop only
ensures the six fields EXIST, it does not coerce an explicit `null` to the
empty string, so the claim "never null/None" fails. -/
theorem gemini_merge_null_price :
    ((mergeGeminiResults [] (extract_with_gemini_items [geminiNullPriceItem])).headD
      .nil).lookup "price" = some .jnull := by
  rfl

/-- Ensuring a field makes its key present. -/
theorem hasKey_ensure_self (o : JObj) (k : String) :
    (ensureStrField o k).hasKey k = true := by
  unfold ensureStrField JObj.hasKey
  by_cases h : (o.lookup k).isSome
  · simp [h]
  · simp [h, JObj.lookup_set_self]

/-- Ensuring a field keeps every present key present. -/
theorem hasKey_ensure_mono (o : JObj) (k k' : String)
    (h : o.hasKey k' = true) : (ensureStrField o k).hasKey k' = true := by
  unfold ensureStrField JObj.hasKey
  unfold JObj.hasKey at h
  by_cases hk : (o.lookup k).isSome
  · simp [hk, h]
  · by_cases hkk : k' = k
    · subst hkk
      simp [hk, JObj.lookup_set_self]
    · simp [hk, JObj.lookup_set_ne _ _ _ _ hkk, h]

/-- A conditional `set` (the `imageUrl`/`additionalInfo` steps) makes its key
present. -/
theorem hasKey_condSet_self (o : JObj) (k : String) (v : JVal) :
    (if o.hasKey k then o else o.set k v).hasKey k = true := by
  unfold JObj.hasKey
  by_cases h : (o.lookup k).isSome
  · simp [h]
  · simp [h, JObj.lookup_set_self]

/-- A conditional `set` keeps every present key present. -/
theorem hasKey_condSet_mono (o : JObj) (k k' : String) (v : JVal)
    (h : o.hasKey k' = true) : (if o.hasKey k then o else o.set k v).hasKey k' = true := by
  unfold JObj.hasKey
  unfold JObj.hasKey at h
  by_cases hk : (o.lookup k).isSome
  · simp [hk, h]
  · by_cases hkk : k' = k
    · subst hkk
      simp [hk, JObj.lookup_set_self]
    · simp [hk, JObj.lookup_set_ne _ _ _ _ hkk, h]

/-- C5 (amended): every record returned to the caller carries all six
primary fields PRESENT; on the structured Google path they are additionally
never `null` (the `None → ""` coercion loop guarantees it for any component
values the extraction computed); on the Gemini merge path presence is
guaranteed but an explicitly `null` field value is passed through. -/
theorem six_fields_present :
    (∀ link price currency productName source imageUrl addl : JVal,
      ∀ k ∈ sixKeys,
        ∃ v, (googleBuildResult link price currency productName source imageUrl
          addl).lookup k = some v ∧ v ≠ .jnull) ∧
    (∀ parsed : List JVal, ∀ r ∈ extract_with_gemini_items parsed,
      ∀ k ∈ sixKeys, r.hasKey k = true) := by
  constructor
  · intro link price currency productName source imageUrl addl k hk
    simp only [sixKeys, List.mem_cons, List.not_mem_nil, or_false] at hk
    rcases hk with rfl | rfl | rfl | rfl | rfl | rfl
    · simp only [googleBuildResult, sixKeys, List.foldl, lookup_coerceNullKey,
        JObj.lookup, reduceIte]
      cases link <;> simp
    · simp only [googleBuildResult, sixKeys, List.foldl, lookup_coerceNullKey,
        JObj.lookup, reduceIte]
      cases price <;> simp
    · simp only [googleBuildResult, sixKeys, List.foldl, lookup_coerceNullKey,
        JObj.lookup, reduceIte]
      cases currency <;> simp
    · simp only [googleBuildResult, sixKeys, List.foldl, lookup_coerceNullKey,
        JObj.lookup, reduceIte]
      cases productName <;> simp
    · simp only [googleBuildResult, sixKeys, List.foldl, lookup_coerceNullKey,
        JObj.lookup, reduceIte]
      cases source <;> simp
    · simp only [googleBuildResult, sixKeys, List.foldl, lookup_coerceNullKey,
        JObj.lookup, reduceIte]
      cases imageUrl <;> simp
  · intro parsed r hr k hk
    rcases List.mem_filterMap.mp hr with ⟨item, _, hitem⟩
    cases item with
    | jobj o =>
      simp only [geminiProcessItem] at hitem
      by_cases hlink : o.hasKey "link"
      · rw [if_pos hlink] at hitem
        injection hitem with hitem
        subst hitem
        simp only [sixKeys, List.mem_cons, List.not_mem_nil, or_false] at hk
        simp only [List.foldl]
        rcases hk with rfl | rfl | rfl | rfl | rfl | rfl
        · exact hasKey_condSet_mono _ _ _ _ (hasKey_condSet_mono _ _ _ _
            (hasKey_ensure_mono _ _ _ (hasKey_ensure_self _ _)))
        · exact hasKey_condSet_mono _ _ _ _ (hasKey_condSet_mono _ _ _ _
            (hasKey_ensure_mono _ _ _ (hasKey_ensure_mono _ _ _
              (hasKey_ensure_mono _ _ _ (hasKey_ensure_self _ _)))))
        · exact hasKey_condSet_mono _ _ _ _ (hasKey_condSet_mono _ _ _ _
            (hasKey_ensure_mono _ _ _ (hasKey_ensure_mono _ _ _
              (hasKey_ensure_self _ _))))
        · exact hasKey_condSet_mono _ _ _ _ (hasKey_condSet_mono _ _ _ _
            (hasKey_ensure_mono _ _ _ (hasKey_ensure_mono _ _ _
              (hasKey_ensure_mono _ _ _ (hasKey_ensure_mono _ _ _
                (hasKey_ensure_self _ _))))))
        · exact hasKey_condSet_mono _ _ _ _ (hasKey_condSet_mono _ _ _ _
            (hasKey_ensure_self _ _))
        · exact hasKey_condSet_mono _ _ _ _ (hasKey_condSet_self _ _ _)
      · rw [if_neg hlink] at hitem
        exact Option.noConfusion hitem
    | jnull => exact Option.noConfusion hitem
    | jbool b => exact Option.noConfusion hitem
    | jnum n => exact Option.noConfusion hitem
    | jstr s => exact Option.noConfusion hitem

/-- Witness for C5's amended statement: a Google-path record built from a
`None` price has a non-null `"price"`, and a minimal Gemini item's processed
record has the `"price"` key present. -/
theorem six_fields_present_witness :
    (∃ v, (googleBuildResult (.jstr "l") .jnull (.jstr "USD") (.jstr "N")
      (.jstr "s") (.jstr "") (.jobj .nil)).lookup "price" = some v ∧ v ≠ .jnull) ∧
    (((extract_with_gemini_items [.jobj (.cons "link" (.jstr "l") .nil)]).headD
      .nil).hasKey "price" = true) := by
  constructor
  · exact six_fields_present.1 (.jstr "l") .jnull (.jstr "USD") (.jstr "N")
      (.jstr "s") (.jstr "") (.jobj .nil) "price" (by decide)
  · have h : extract_with_gemini_items [.jobj (.cons "link" (.jstr "l") .nil)] =
        [(extract_with_gemini_items [.jobj (.cons "link" (.jstr "l") .nil)]).headD .nil] := rfl
    exact six_fields_present.2 _ _ (by rw [h]; exact List.mem_singleton.mpr rfl)
      "price" (by decide)

/-! ## Claim C9 — the five-item cap on AI extraction -/

/-- Six valid Gemini items (dicts with `productName` and `price`). -/
def sixAIItems : List JVal :=
  List.replicate 6 (.jobj (.cons "productName" (.jstr "P")
    (.cons "price" (.jstr "1") .nil)))

/-- C9 counterexample: six valid parsed items make the Amazon and Flipkart
AI-fallback loops return six records — neither loop applies the five-item
cap the claim asserts. -/
theorem amazon_flipkart_ai_no_cap :
    (amazonExtractItems "https://www.amazon.in/s?k=watch" sixAIItems).length = 6 ∧
    (flipkartExtractItems sixAIItems).length = 6 := by
  constructor <;> rfl

/-- The capped acceptance loop never exceeds five items when started below
five. -/
theorem genericAcceptLoop_le (v : JVal → Option JObj) :
    ∀ (items : List JVal) (acc : List JObj),
      acc.length < 5 → (genericAcceptLoop v items acc).length ≤ 5
  | [], acc, h => by
    simpa [genericAcceptLoop] using Nat.le_of_lt h
  | it :: rest, acc, h => by
    unfold genericAcceptLoop
    cases hv : v it with
    | none => exact genericAcceptLoop_le v rest acc h
    | some x =>
      simp only
      by_cases hlen : 5 ≤ (acc ++ [x]).length
      · simp only [hlen, if_true]
        simp only [List.length_append, List.length_cons, List.length_nil]
        omega
      · simp only [hlen, if_false]
        refine genericAcceptLoop_le v rest (acc ++ [x]) ?_
        omega

/-- The soup-fallback loop never exceeds five items when started below
five. -/
theorem genericSoupLoop_le (website domain : String) (urlPat : Option RPattern)
    (probe : String → Bool) :
    ∀ (anchors : List (String × String)) (seen : List String)
      (acc : List JObj), acc.length < 5 →
      (genericSoupLoop website domain urlPat probe anchors seen acc).length ≤ 5
  | [], _, acc, h => by
    simpa [genericSoupLoop] using Nat.le_of_lt h
  | (href, nameText) :: rest, seen, acc, h => by
    unfold genericSoupLoop
    by_cases h1 : strIn domain href
    case neg =>
      simp only [h1]
      exact genericSoupLoop_le website domain urlPat probe rest seen acc h
    case pos =>
      simp only [h1]
      by_cases h2 : seen.contains href
      · simp only [h2]
        exact genericSoupLoop_le website domain urlPat probe rest seen acc h
      · simp only [h2]
        by_cases h3 : (urlPat.map (fun pat => !reSearch pat href.data)).getD false
        · simp only [h3, if_true]
          exact genericSoupLoop_le website domain urlPat probe rest _ acc h
        · simp only [h3, if_false]
          by_cases h4 : nameText = ""
          · simp only [h4, if_true]
            exact genericSoupLoop_le website domain urlPat probe rest _ acc h
          · simp only [h4, if_false]
            set link := if pyStartsWith href "http" then href
              else if pyStartsWith href "/" then "https://" ++ domain ++ href
              else "https://" ++ domain ++ "/" ++ href with hlink
            by_cases h5 : probe link
            · simp only [h5, Bool.not_true, Bool.false_eq_true, if_false]
              split
              next hlen =>
                simp only [List.length_append, List.length_cons, List.length_nil]
                omega
              next hlen =>
                refine genericSoupLoop_le website domain urlPat probe rest _ _ ?_
                simp only [List.length_append, List.length_cons, List.length_nil] at hlen ⊢
                omega
            · simp only [h5, Bool.not_false, if_true]
              exact genericSoupLoop_le website domain urlPat probe rest _ acc h

/-- C9 (amended): the five-item cap holds for the generic multi-site
adapter's AI fallback — both its AI-acceptance loop and its markup-harvester
fallback stop once five items are accepted — while the Amazon and Flipkart
AI fallbacks (see the counterexample) append every valid item with no cap. -/
theorem generic_ai_extraction_capped (probe : String → Bool) (website : String)
    (parsed : List JVal) (anchors : List (String × String)) :
    (genericExtractItems probe website parsed anchors).length ≤ 5 := by
  unfold genericExtractItems
  simp only
  split
  · exact genericSoupLoop_le _ _ _ _ _ _ _ (by simp)
  · exact genericAcceptLoop_le _ _ _ (by simp)

/-! ## Claim C7 — `clean_price` -/

/-- A digit differs from any non-digit character. -/
theorem digit_ne (c d : Char) (h : c.isDigit = true) (hd : d.isDigit = false) :
    c ≠ d := by
  intro he
  subst he
  rw [h] at hd
  exact Bool.noConfusion hd

/-- Digits are not whitespace. -/
theorem not_ws_of_digit (c : Char) (h : c.isDigit = true) :
    c.isWhitespace = false := by
  by_contra hw
  rw [Bool.not_eq_false] at hw
  simp only [Char.isWhitespace, Bool.or_eq_true, decide_eq_true_eq] at hw
  rcases hw with ((h1 | h1) | h1) | h1 <;> (subst h1; exact absurd h (by decide))

/-- Dropping while a predicate holds is the identity when every member fails it. -/
theorem dropWhile_eq_self_of (p : Char → Bool) (l : List Char)
    (h : ∀ c ∈ l, p c = false) : l.dropWhile p = l := by
  cases l with
  | nil => rfl
  | cons c t => simp [List.dropWhile_cons, h c (List.mem_cons_self c t)]

/-- Whitespace stripping is the identity on whitespace-free lists. -/
theorem stripWs_eq_self (l : List Char) (h : ∀ c ∈ l, c.isWhitespace = false) :
    stripWs l = l := by
  unfold stripWs
  rw [dropWhile_eq_self_of _ _ h,
    dropWhile_eq_self_of _ _ (fun c hc => h c (List.mem_reverse.mp hc)),
    List.reverse_reverse]

/-- The head left by `dropWhile` fails the predicate. -/
theorem dropWhile_head_false (p : Char → Bool) :
    ∀ (l : List Char) (c : Char) (t : List Char),
      l.dropWhile p = c :: t → p c = false
  | [], c, t, h => by simp [List.dropWhile_nil] at h
  | a :: l, c, t, h => by
    by_cases ha : p a
    · rw [List.dropWhile_cons, if_pos ha] at h
      exact dropWhile_head_false p l c t h
    · rw [List.dropWhile_cons, if_neg ha] at h
      injection h with h1 _
      subst h1
      exact Bool.eq_false_iff.mpr ha

/-- Taking while a predicate holds passes over an all-true prefix. -/
theorem takeWhile_all_append (p : Char → Bool) (l r : List Char)
    (h : ∀ c ∈ l, p c = true) : (l ++ r).takeWhile p = l ++ r.takeWhile p := by
  rw [List.takeWhile_append, List.takeWhile_eq_self_iff.mpr h]
  simp

/-- Dropping while a predicate holds removes an all-true prefix. -/
theorem dropWhile_all_append (p : Char → Bool) (l r : List Char)
    (h : ∀ c ∈ l, p c = true) : (l ++ r).dropWhile p = r.dropWhile p := by
  rw [List.dropWhile_append, List.dropWhile_eq_nil_iff.mpr h]
  simp

/-- The canonical integer part printed by `str(float(...))`. -/
def intPart (ip : List Char) : List Char :=
  if stripZerosL ip = [] then ['0'] else stripZerosL ip

/-- The canonical fraction part printed by `str(float(...))`. -/
def fracPart (fp : List Char) : List Char :=
  if stripZerosR fp = [] then ['0'] else stripZerosR fp

/-- Unfolding `renderDec` into its canonical parts. -/
theorem renderDec_eq (ip fp : List Char) :
    renderDec ip fp = intPart ip ++ '.' :: fracPart fp := rfl

theorem intPart_ne_nil (ip : List Char) : intPart ip ≠ [] := by
  unfold intPart
  split
  · simp
  · assumption

theorem fracPart_ne_nil (fp : List Char) : fracPart fp ≠ [] := by
  unfold fracPart
  split
  · simp
  · assumption

theorem intPart_digits (ip : List Char) (h : ∀ c ∈ ip, c.isDigit = true) :
    ∀ c ∈ intPart ip, c.isDigit = true := by
  intro c hc
  unfold intPart at hc
  split at hc
  · simp only [List.mem_singleton] at hc
    subst hc
    decide
  · exact h c ((List.dropWhile_sublist _).subset hc)

theorem fracPart_digits (fp : List Char) (h : ∀ c ∈ fp, c.isDigit = true) :
    ∀ c ∈ fracPart fp, c.isDigit = true := by
  intro c hc
  unfold fracPart at hc
  split at hc
  · simp only [List.mem_singleton] at hc
    subst hc
    decide
  · unfold stripZerosR at hc
    exact h c (List.mem_reverse.mp
      ((List.dropWhile_sublist _).subset (List.mem_reverse.mp hc)))

/-- A cons left by `stripZerosL` keeps its non-zero head. -/
theorem stripZerosL_cons_fix (c : Char) (t : List Char)
    (hc : decide (c = '0') = false) : stripZerosL (c :: t) = c :: t := by
  simp only [stripZerosL, List.dropWhile_cons, hc, Bool.false_eq_true, if_false]

/-- Re-normalising the canonical integer part is the identity. -/
theorem intPart_idem (ip : List Char) : intPart (intPart ip) = intPart ip := by
  by_cases h : stripZerosL ip = []
  · have h1 : intPart ip = ['0'] := by rw [intPart, if_pos h]
    have h2 : stripZerosL ['0'] = [] := by decide
    rw [h1, intPart, if_pos h2]
  · have h1 : intPart ip = stripZerosL ip := by rw [intPart, if_neg h]
    obtain ⟨c, t, hct⟩ : ∃ c t, stripZerosL ip = c :: t := by
      cases hs : stripZerosL ip with
      | nil => exact absurd hs h
      | cons c t => exact ⟨c, t, rfl⟩
    have hc : decide (c = '0') = false :=
      dropWhile_head_false _ ip c t hct
    rw [h1, hct, intPart, stripZerosL_cons_fix c t hc]
    simp

/-- Re-normalising the canonical fraction part is the identity. -/
theorem fracPart_idem (fp : List Char) : fracPart (fracPart fp) = fracPart fp := by
  by_cases h : stripZerosR fp = []
  · have h1 : fracPart fp = ['0'] := by rw [fracPart, if_pos h]
    have h2 : stripZerosR ['0'] = [] := by decide
    rw [h1, fracPart, if_pos h2]
  · have h1 : fracPart fp = stripZerosR fp := by rw [fracPart, if_neg h]
    obtain ⟨c, t, hct⟩ : ∃ c t, fp.reverse.dropWhile (fun x => decide (x = '0')) = c :: t := by
      cases hs : fp.reverse.dropWhile (fun x => decide (x = '0')) with
      | nil =>
        exfalso
        apply h
        rw [stripZerosR]
        rw [show fp.reverse.dropWhile (fun c => decide (c = '0')) = [] from hs]
        rfl
      | cons c t => exact ⟨c, t, rfl⟩
    have hc : decide (c = '0') = false :=
      dropWhile_head_false _ fp.reverse c t hct
    have h2 : stripZerosR (stripZerosR fp) = stripZerosR fp := by
      rw [stripZerosR, stripZerosR]
      rw [show fp.reverse.dropWhile (fun c => decide (c = '0')) = c :: t from hct]
      rw [List.reverse_reverse]
      rw [show (c :: t).dropWhile (fun c => decide (c = '0')) = c :: t from by
        simp only [List.dropWhile_cons, hc, Bool.false_eq_true, if_false]]
    rw [h1, fracPart, h2, if_neg h]

/-- Characters of `renderDec` are digits or the dot. -/
theorem renderDec_chars (ip fp : List Char)
    (hip : ∀ c ∈ ip, c.isDigit = true) (hfp : ∀ c ∈ fp, c.isDigit = true) :
    ∀ c ∈ renderDec ip fp, c.isDigit = true ∨ c = '.' := by
  intro c hc
  rw [renderDec_eq] at hc
  rcases List.mem_append.mp hc with hc | hc
  · exact Or.inl (intPart_digits ip hip c hc)
  · rcases List.mem_cons.mp hc with hc | hc
    · exact Or.inr hc
    · exact Or.inl (fracPart_digits fp hfp c hc)

/-- Digits taken from the dot-headed remainder: none. -/
theorem takeWhile_dot (F : List Char) :
    ('.' :: F).takeWhile Char.isDigit = [] := by
  simp [List.takeWhile_cons]

/-- Digits dropped from the dot-headed remainder: none. -/
theorem dropWhile_dot (F : List Char) :
    ('.' :: F).dropWhile Char.isDigit = '.' :: F := by
  simp [List.dropWhile_cons]

/-- Decimal code-point bounds of a digit character. -/
theorem isDigit_toNat (c : Char) (h : c.isDigit = true) :
    48 ≤ c.toNat ∧ c.toNat ≤ 57 := by
  simp only [Char.isDigit, Bool.and_eq_true, decide_eq_true_eq] at h
  exact h

/-- A character with the code point of `'0'` is `'0'`. -/
theorem toNat_48 (c : Char) (h : c.toNat = 48) : c = '0' := by
  have h2 := Char.ofNat_toNat c
  rw [h] at h2
  exact h2.symm

/-- Digit characters produced by `digitChar` are digits. -/
theorem digitChar_isDigit (n : Nat) (h : n < 10) : (digitChar n).isDigit = true := by
  interval_cases n <;> decide

/-- Code point of the character of a decimal digit value. -/
theorem digitChar_toNat (n : Nat) (h : n < 10) : (digitChar n).toNat = 48 + n := by
  interval_cases n <;> decide

/-- Accumulator form of `digitsToNat`. -/
theorem digitsToNat_go (l : List Char) : ∀ a : Nat,
    l.foldl (fun a c => 10 * a + (c.toNat - 48)) a =
      a * 10 ^ l.length + digitsToNat l := by
  induction l with
  | nil => intro a; simp [digitsToNat]
  | cons c t ih =>
    intro a
    have h1 : digitsToNat (c :: t) = (c.toNat - 48) * 10 ^ t.length + digitsToNat t := by
      have h0 : digitsToNat (c :: t) =
          t.foldl (fun a c => 10 * a + (c.toNat - 48)) (10 * 0 + (c.toNat - 48)) := rfl
      rw [h0, ih]
      ring
    rw [List.foldl_cons, ih (10 * a + (c.toNat - 48)), h1, List.length_cons]
    ring

/-- Value of a digit string headed by one character. -/
theorem digitsToNat_cons (c : Char) (t : List Char) :
    digitsToNat (c :: t) = (c.toNat - 48) * 10 ^ t.length + digitsToNat t := by
  have h0 : digitsToNat (c :: t) =
      t.foldl (fun a c => 10 * a + (c.toNat - 48)) (10 * 0 + (c.toNat - 48)) := rfl
  rw [h0, digitsToNat_go]
  ring

/-- Value of a concatenation of digit strings. -/
theorem digitsToNat_append (l r : List Char) :
    digitsToNat (l ++ r) = digitsToNat l * 10 ^ r.length + digitsToNat r := by
  have h0 : digitsToNat (l ++ r) =
      r.foldl (fun a c => 10 * a + (c.toNat - 48)) (digitsToNat l) := by
    rw [show digitsToNat (l ++ r) =
      (l ++ r).foldl (fun a c => 10 * a + (c.toNat - 48)) 0 from rfl, List.foldl_append]
    rfl
  rw [h0, digitsToNat_go]

/-- A digit string's value is below `10 ^ length`. -/
theorem digitsToNat_lt (l : List Char) (h : ∀ c ∈ l, c.isDigit = true) :
    digitsToNat l < 10 ^ l.length := by
  induction l with
  | nil => simp [digitsToNat]
  | cons c t ih =>
    rw [digitsToNat_cons, List.length_cons]
    have hc := isDigit_toNat c (h c (List.mem_cons_self c t))
    have ht := ih (fun x hx => h x (List.mem_cons_of_mem c hx))
    calc (c.toNat - 48) * 10 ^ t.length + digitsToNat t
        < (c.toNat - 48) * 10 ^ t.length + 10 ^ t.length := by omega
      _ = (c.toNat - 48 + 1) * 10 ^ t.length := by ring
      _ ≤ 10 * 10 ^ t.length := Nat.mul_le_mul_right _ (by omega)
      _ = 10 ^ (t.length + 1) := by ring

/-- A digit string headed by a non-zero digit has value at least
`10 ^ (length - 1)`. -/
theorem digitsToNat_head (c : Char) (t : List Char) (hc : c.isDigit = true)
    (h0 : c ≠ '0') : 10 ^ t.length ≤ digitsToNat (c :: t) := by
  rw [digitsToNat_cons]
  have hb := isDigit_toNat c hc
  have h48 : c.toNat ≠ 48 := fun he => h0 (toNat_48 c he)
  have h1 : 1 ≤ c.toNat - 48 := by omega
  have h2 := Nat.mul_le_mul_right (10 ^ t.length) h1
  omega

/-- A digit string of value zero is all zeros. -/
theorem digitsToNat_zero (l : List Char) (h : ∀ c ∈ l, c.isDigit = true)
    (hz : digitsToNat l = 0) : ∀ c ∈ l, c = '0' := by
  induction l with
  | nil => intro c hc; simp at hc
  | cons c t ih =>
    rw [digitsToNat_cons] at hz
    have hc := isDigit_toNat c (h c (List.mem_cons_self c t))
    have hpow : 0 < 10 ^ t.length := pow_pos (by omega) t.length
    have h1 : (c.toNat - 48) * 10 ^ t.length = 0 ∧ digitsToNat t = 0 := by omega
    have hd0 : c.toNat - 48 = 0 := by
      rcases Nat.mul_eq_zero.mp h1.1 with hh | hh
      · exact hh
      · omega
    intro x hx
    rcases List.mem_cons.mp hx with hx | hx
    · subst hx
      exact toNat_48 x (by omega)
    · exact ih (fun y hy => h y (List.mem_cons_of_mem c hy)) h1.2 x hx

/-- An all-zeros digit string has value zero. -/
theorem digitsToNat_all_zero (l : List Char) (h : ∀ c ∈ l, c = '0') :
    digitsToNat l = 0 := by
  induction l with
  | nil => rfl
  | cons c t ih =>
    rw [digitsToNat_cons, ih (fun y hy => h y (List.mem_cons_of_mem c hy)),
      h c (List.mem_cons_self c t)]
    have h0 : ('0').toNat - 48 = 0 := by decide
    rw [h0]
    simp

/-- Correctness of the fuel-driven digit printer. -/
theorem natDecAux_val : ∀ (fuel n : Nat) (acc : List Char), n < 10 ^ fuel →
    digitsToNat (natDecAux fuel n acc) = n * 10 ^ acc.length + digitsToNat acc
  | 0, n, acc, h => by
    have hn : n = 0 := by simpa using h
    subst hn
    simp [natDecAux]
  | fuel + 1, n, acc, h => by
    rw [natDecAux]
    split
    · next hn =>
      rw [digitsToNat_cons, digitChar_toNat n hn]
      have h48 : 48 + n - 48 = n := by omega
      rw [h48]
    · next hn =>
      have hdiv : n / 10 < 10 ^ fuel := by
        rw [Nat.div_lt_iff_lt_mul (by omega : 0 < 10)]
        calc n < 10 ^ (fuel + 1) := h
          _ = 10 ^ fuel * 10 := by ring
      rw [natDecAux_val fuel (n / 10) (digitChar (n % 10) :: acc) hdiv]
      rw [List.length_cons, digitsToNat_cons,
        digitChar_toNat (n % 10) (Nat.mod_lt _ (by omega))]
      have h48 : 48 + n % 10 - 48 = n % 10 := by omega
      rw [h48]
      have hnm : 10 * (n / 10) + n % 10 = n := Nat.div_add_mod n 10
      calc n / 10 * 10 ^ (acc.length + 1) + (n % 10 * 10 ^ acc.length + digitsToNat acc)
          = (10 * (n / 10) + n % 10) * 10 ^ acc.length + digitsToNat acc := by ring
        _ = n * 10 ^ acc.length + digitsToNat acc := by rw [hnm]

/-- The decimal digit string of `n` has value `n`. -/
theorem natDec_val (n : Nat) : digitsToNat (natDec n) = n := by
  have h : n < 10 ^ (n + 1) :=
    lt_of_lt_of_le (Nat.lt_succ_self n) (le_of_lt (Nat.lt_pow_self (by omega) (n + 1)))
  rw [natDec, natDecAux_val (n + 1) n [] h]
  simp [digitsToNat]

/-- Characters of the fuel-driven digit printer are digits. -/
theorem natDecAux_digits : ∀ (fuel n : Nat) (acc : List Char),
    (∀ c ∈ acc, c.isDigit = true) → ∀ c ∈ natDecAux fuel n acc, c.isDigit = true
  | 0, _, _, hacc => hacc
  | fuel + 1, n, acc, hacc => by
    rw [natDecAux]
    split
    · next hn =>
      intro c hc
      rcases List.mem_cons.mp hc with hc | hc
      · subst hc
        exact digitChar_isDigit n hn
      · exact hacc c hc
    · next hn =>
      refine natDecAux_digits fuel (n / 10) _ (fun c hc => ?_)
      rcases List.mem_cons.mp hc with hc | hc
      · subst hc
        exact digitChar_isDigit (n % 10) (Nat.mod_lt _ (by omega))
      · exact hacc c hc

/-- Exponent digit strings contain only digits. -/
theorem expDigits_digits (e : Int) : ∀ c ∈ expDigits e, c.isDigit = true := by
  intro c hc
  simp only [expDigits] at hc
  split at hc
  · rcases List.mem_cons.mp hc with hc | hc
    · subst hc
      decide
    · exact natDecAux_digits _ _ [] (by simp) c hc
  · exact natDecAux_digits _ _ [] (by simp) c hc

/-- Value of the exponent digit string. -/
theorem expDigits_val (e : Int) : digitsToNat (expDigits e) = e.natAbs := by
  simp only [expDigits]
  split
  · rw [digitsToNat_cons]
    have h0 : ('0').toNat - 48 = 0 := by decide
    rw [h0, natDec_val]
    simp
  · exact natDec_val _

/-- The exponent digit string is non-empty. -/
theorem expDigits_ne_nil (e : Int) : expDigits e ≠ [] := by
  simp only [expDigits]
  split
  · simp
  · next h =>
    intro hnil
    rw [hnil] at h
    simp at h

/-- A digit-headed string carries no sign. -/
theorem signSplit_digit (c : Char) (t : List Char) (hc : c.isDigit = true) :
    signSplit (c :: t) = (1, c :: t) := by
  rw [signSplit, if_neg (digit_ne c '+' hc (by decide)),
    if_neg (digit_ne c '-' hc (by decide))]

/-- The sign factor times the absolute value recovers the integer. -/
theorem signFactor_natAbs (e : Int) :
    (if e < 0 then (-1 : Int) else 1) * (e.natAbs : Int) = e := by
  rcases lt_or_ge e 0 with h | h
  · rw [if_pos h]
    omega
  · rw [if_neg (not_lt.mpr h)]
    omega

/-- Scientific rendering with a one-digit mantissa, unfolded. -/
theorem renderSci_eq_nil (d : Char) (e : Int) :
    renderSci [d] e = d :: 'e' :: (if e < 0 then '-' else '+') :: expDigits e := rfl

/-- Scientific rendering with a multi-digit mantissa, unfolded. -/
theorem renderSci_eq_cons (d r : Char) (rs : List Char) (e : Int) :
    renderSci (d :: r :: rs) e =
      d :: '.' :: ((r :: rs) ++ 'e' :: (if e < 0 then '-' else '+') :: expDigits e) := rfl

/-- Sign of the scientific exponent finds no digit head. -/
theorem sgn_not_digit (e : Int) :
    (if e < 0 then '-' else '+') = '+' ∨ (if e < 0 then '-' else '+') = '-' := by
  rcases lt_or_ge e 0 with he | he
  · rw [if_pos he]
    exact Or.inr rfl
  · rw [if_neg (not_lt.mpr he)]
    exact Or.inl rfl

/-- Decomposing a scientific rendering into mantissa and exponent part. -/
theorem renderSci_mant (d : Char) (rest : List Char) (e : Int) :
    renderSci (d :: rest) e =
      (if rest = [] then [d] else d :: '.' :: rest) ++
        'e' :: (if e < 0 then '-' else '+') :: expDigits e := rfl

/-- Characters of a scientific rendering. -/
theorem renderSci_chars (d : Char) (rest : List Char) (e : Int)
    (hd : ∀ c ∈ d :: rest, c.isDigit = true) :
    ∀ c ∈ renderSci (d :: rest) e,
      c.isDigit = true ∨ c = '.' ∨ c = 'e' ∨ c = '+' ∨ c = '-' := by
  intro c hc
  rw [renderSci_mant] at hc
  rcases List.mem_append.mp hc with hc | hc
  · by_cases hr : rest = []
    · rw [if_pos hr] at hc
      simp only [List.mem_singleton] at hc
      rw [hc]
      exact Or.inl (hd d (List.mem_cons_self d rest))
    · rw [if_neg hr] at hc
      rcases List.mem_cons.mp hc with hc | hc
      · rw [hc]
        exact Or.inl (hd d (List.mem_cons_self d rest))
      rcases List.mem_cons.mp hc with hc | hc
      · rw [hc]
        exact Or.inr (Or.inl rfl)
      · exact Or.inl (hd c (List.mem_cons_of_mem d hc))
  · rcases List.mem_cons.mp hc with hc | hc
    · rw [hc]
      exact Or.inr (Or.inr (Or.inl rfl))
    rcases List.mem_cons.mp hc with hc | hc
    · rw [hc]
      rcases sgn_not_digit e with h | h
      · exact Or.inr (Or.inr (Or.inr (Or.inl h)))
      · exact Or.inr (Or.inr (Or.inr (Or.inr h)))
    · exact Or.inl (expDigits_digits e c hc)

/-- Membership through trailing-zero stripping. -/
theorem mem_stripZerosR (l : List Char) (c : Char) (h : c ∈ stripZerosR l) : c ∈ l := by
  unfold stripZerosR at h
  exact List.mem_reverse.mp ((List.dropWhile_sublist _).subset (List.mem_reverse.mp h))

/-- Membership through leading-zero stripping. -/
theorem mem_stripZerosL (l : List Char) (c : Char) (h : c ∈ stripZerosL l) : c ∈ l :=
  (List.dropWhile_sublist _).subset h

/-- Every list is its trailing-zero-stripped form plus trailing zeros. -/
theorem stripZerosR_decomp (l : List Char) :
    ∃ z, l = stripZerosR l ++ z ∧ ∀ c ∈ z, c = '0' := by
  refine ⟨(l.reverse.takeWhile (fun c => decide (c = '0'))).reverse, ?_, ?_⟩
  · rw [stripZerosR, ← List.reverse_append, List.takeWhile_append_dropWhile,
      List.reverse_reverse]
  · intro c hc
    have hc2 : c ∈ l.reverse.takeWhile (fun x => decide (x = '0')) :=
      List.mem_reverse.mp hc
    have hc3 := List.mem_takeWhile_imp hc2
    exact of_decide_eq_true hc3

/-- A cons left by trailing-zero stripping keeps the head of the list. -/
theorem stripZerosR_head (l : List Char) (c : Char) (t : List Char)
    (h : stripZerosR l = c :: t) : ∃ t2, l = c :: t2 := by
  obtain ⟨z, hz, _⟩ := stripZerosR_decomp l
  rw [h] at hz
  exact ⟨t ++ z, by simpa using hz⟩

/-- Significant digits are digits. -/
theorem sigExp_fst_digits (ip fp : List Char)
    (hip : ∀ c ∈ ip, c.isDigit = true) (hfp : ∀ c ∈ fp, c.isDigit = true) :
    ∀ c ∈ (sigExp ip fp).1, c.isDigit = true := by
  intro c hc
  replace hc : c ∈ stripZerosR (stripZerosL (ip ++ fp)) := hc
  have hc2 := mem_stripZerosL _ c (mem_stripZerosR _ c hc)
  rcases List.mem_append.mp hc2 with hx | hx
  · exact hip c hx
  · exact hfp c hx

/-- The head significant digit is non-zero. -/
theorem sigExp_fst_head (ip fp : List Char) (d : Char) (rest : List Char)
    (h : (sigExp ip fp).1 = d :: rest) : ¬(d = '0') := by
  replace h : stripZerosR (stripZerosL (ip ++ fp)) = d :: rest := h
  obtain ⟨t2, ht2⟩ := stripZerosR_head _ d rest h
  exact of_decide_eq_false (dropWhile_head_false (fun x => decide (x = '0')) (ip ++ fp) d t2 ht2)

/-- Decimal exponent of a value with a non-zero leading integer digit. -/
theorem sigExp_snd_pos (c : Char) (t F : List Char) (hc0 : ¬(c = '0')) :
    (sigExp (c :: t) F).2 = (t.length : Int) := by
  show ((c :: t).length : Int) -
      ((((c :: t) ++ F).takeWhile (fun x => decide (x = '0'))).length : Int) - 1 = _
  rw [List.cons_append, List.takeWhile_cons,
    if_neg (fun h => hc0 (of_decide_eq_true h))]
  simp only [List.length_nil, List.length_cons]
  push_cast
  ring

/-- Decimal exponent of a value below one. -/
theorem sigExp_snd_zero (F : List Char) :
    (sigExp ['0'] F).2 = -((F.takeWhile (fun x => decide (x = '0'))).length : Int) - 1 := by
  show ((['0'] : List Char).length : Int) -
      (((['0'] ++ F).takeWhile (fun x => decide (x = '0'))).length : Int) - 1 = _
  rw [show (['0'] ++ F : List Char) = '0' :: F from rfl, List.takeWhile_cons,
    if_pos (by decide)]
  simp only [List.length_cons, List.length_nil]
  push_cast
  ring

/-- The canonical integer part is `"0"` or headed by a non-zero digit. -/
theorem intPart_cases (ip : List Char) :
    intPart ip = ['0'] ∨ ∃ c t, intPart ip = c :: t ∧ ¬(c = '0') := by
  unfold intPart
  split
  · exact Or.inl rfl
  · next h =>
    obtain ⟨c, t, hct⟩ : ∃ c t, stripZerosL ip = c :: t := by
      cases hs : stripZerosL ip with
      | nil => exact absurd hs h
      | cons c t => exact ⟨c, t, rfl⟩
    have hc : decide (c = '0') = false := dropWhile_head_false _ ip c t hct
    exact Or.inr ⟨c, t, hct, of_decide_eq_false hc⟩

/-- Parsing a fixed-notation rendering recovers its exact value. -/
theorem pyFloat_renderDec (ip fp : List Char)
    (hip : ∀ c ∈ ip, c.isDigit = true) (hfp : ∀ c ∈ fp, c.isDigit = true) :
    pyFloatCore (renderDec ip fp) =
      some ((digitsToNat (intPart ip) : ℚ) +
        (digitsToNat (fracPart fp) : ℚ) / (10 : ℚ) ^ (fracPart fp).length) := by
  have hI := intPart_digits ip hip
  have hF := fracPart_digits fp hfp
  have hIne := intPart_ne_nil ip
  obtain ⟨c, t, hct⟩ : ∃ c t, intPart ip = c :: t := by
    cases hs : intPart ip with
    | nil => exact absurd hs hIne
    | cons c t => exact ⟨c, t, rfl⟩
  have hcd : c.isDigit = true := hI c (hct ▸ List.mem_cons_self c t)
  have hws : stripWs (renderDec ip fp) = renderDec ip fp := by
    refine stripWs_eq_self _ (fun x hx => ?_)
    rcases renderDec_chars ip fp hip hfp x hx with hd | hd
    · exact not_ws_of_digit x hd
    · subst hd
      decide
  have hsign : signSplit (renderDec ip fp) = (1, renderDec ip fp) := by
    rw [renderDec_eq, hct, List.cons_append]
    rw [signSplit]
    rw [if_neg (digit_ne c '+' hcd (by decide)),
      if_neg (digit_ne c '-' hcd (by decide))]
  have hfpw : (fracPart fp).takeWhile Char.isDigit = fracPart fp :=
    List.takeWhile_eq_self_iff.mpr hF
  have hfpd : (fracPart fp).dropWhile Char.isDigit = [] :=
    List.dropWhile_eq_nil_iff.mpr hF
  have hmant : mantissaSplit (renderDec ip fp) =
      some ((digitsToNat (intPart ip) : ℚ) +
        (digitsToNat (fracPart fp) : ℚ) / (10 : ℚ) ^ (fracPart fp).length, []) := by
    rw [renderDec_eq]
    simp only [mantissaSplit]
    rw [takeWhile_all_append _ _ _ hI, dropWhile_all_append _ _ _ hI,
      takeWhile_dot, dropWhile_dot, List.append_nil]
    simp only [reduceIte, hfpw, hfpd]
    have hcond : ¬(intPart ip = [] ∧ fracPart fp = []) := fun hp => hIne hp.1
    rw [if_neg hcond]
  have hval : pyFloatCore (renderDec ip fp) =
      some (((1 : Int) : ℚ) * ((digitsToNat (intPart ip) : ℚ) +
        (digitsToNat (fracPart fp) : ℚ) / (10 : ℚ) ^ (fracPart fp).length)) := by
    simp only [pyFloatCore, hws, hsign, hmant]
  rw [hval]
  congr 1
  push_cast
  ring

/-- Splitting the sign off the scientific exponent part. -/
theorem signSplit_sgn (e : Int) :
    signSplit ((if e < 0 then '-' else '+') :: expDigits e) =
      ((if e < 0 then (-1 : Int) else 1), expDigits e) := by
  rcases lt_or_ge e 0 with h | h
  · rw [if_pos h, if_pos h, signSplit, if_neg (by decide : ¬('-' = '+')), if_pos rfl]
  · rw [if_neg (not_lt.mpr h), if_neg (not_lt.mpr h), signSplit, if_pos rfl]

/-- Parsing a scientific rendering recovers its exact value
`mantissa × 10 ^ e`. -/
theorem pyFloat_renderSci (d : Char) (rest : List Char) (e : Int)
    (hd : ∀ c ∈ d :: rest, c.isDigit = true) :
    pyFloatCore (renderSci (d :: rest) e) = some (mantQ (d :: rest) * (10 : ℚ) ^ e) :=
  match rest, hd with
  | [], hd => by
    have hde : d.isDigit = true := hd d (List.mem_cons_self d [])
    have hnws : ∀ x ∈ renderSci [d] e, x.isWhitespace = false := by
      intro x hx
      rcases renderSci_chars d [] e hd x hx with h | h | h | h | h
      · exact not_ws_of_digit x h
      · subst h; decide
      · subst h; decide
      · subst h; decide
      · subst h; decide
    have hws := stripWs_eq_self _ hnws
    have hedd := expDigits_digits e
    have hedw : (expDigits e).takeWhile Char.isDigit = expDigits e :=
      List.takeWhile_eq_self_iff.mpr hedd
    have hedn : (expDigits e).dropWhile Char.isDigit = [] :=
      List.dropWhile_eq_nil_iff.mpr hedd
    rw [renderSci_eq_nil] at hws ⊢
    have ht1 : (d :: 'e' :: (if e < 0 then '-' else '+') :: expDigits e).takeWhile
        Char.isDigit = [d] := by
      rw [List.takeWhile_cons, if_pos hde, List.takeWhile_cons,
        if_neg (by decide : ¬(('e').isDigit = true))]
    have hd1 : (d :: 'e' :: (if e < 0 then '-' else '+') :: expDigits e).dropWhile
        Char.isDigit = 'e' :: (if e < 0 then '-' else '+') :: expDigits e := by
      rw [List.dropWhile_cons, if_pos hde, List.dropWhile_cons,
        if_neg (by decide : ¬(('e').isDigit = true))]
    have hm : mantissaSplit (d :: 'e' :: (if e < 0 then '-' else '+') :: expDigits e) =
        some ((digitsToNat [d] : ℚ),
          'e' :: (if e < 0 then '-' else '+') :: expDigits e) := by
      simp only [mantissaSplit, ht1, hd1]
      rw [if_neg (by decide : ¬(('e' : Char) = '.')),
        if_neg (by simp : ¬(([d] : List Char) = []))]
    simp only [pyFloatCore, hws,
      signSplit_digit d ('e' :: (if e < 0 then '-' else '+') :: expDigits e) hde, hm,
      eq_self_iff_true, true_or, if_true]
    simp only [signSplit_sgn e, hedw, hedn, ne_eq, eq_self_iff_true,
      not_true_eq_false, or_false]
    rw [if_neg (expDigits_ne_nil e), expDigits_val, signFactor_natAbs]
    have hm0 : mantQ [d] = (digitsToNat [d] : ℚ) := by
      simp [mantQ, digitsToNat]
    rw [hm0]
    congr 1
    push_cast
    ring
  | r :: rs, hd => by
    have hde : d.isDigit = true := hd d (List.mem_cons_self d (r :: rs))
    have hrest : ∀ c ∈ r :: rs, c.isDigit = true :=
      fun c hc => hd c (List.mem_cons_of_mem d hc)
    have hnws : ∀ x ∈ renderSci (d :: r :: rs) e, x.isWhitespace = false := by
      intro x hx
      rcases renderSci_chars d (r :: rs) e hd x hx with h | h | h | h | h
      · exact not_ws_of_digit x h
      · subst h; decide
      · subst h; decide
      · subst h; decide
      · subst h; decide
    have hws := stripWs_eq_self _ hnws
    have hedd := expDigits_digits e
    have hedw : (expDigits e).takeWhile Char.isDigit = expDigits e :=
      List.takeWhile_eq_self_iff.mpr hedd
    have hedn : (expDigits e).dropWhile Char.isDigit = [] :=
      List.dropWhile_eq_nil_iff.mpr hedd
    rw [renderSci_eq_cons] at hws ⊢
    have ht1 : (d :: '.' :: ((r :: rs) ++ 'e' :: (if e < 0 then '-' else '+') ::
        expDigits e)).takeWhile Char.isDigit = [d] := by
      rw [List.takeWhile_cons, if_pos hde, List.takeWhile_cons,
        if_neg (by decide : ¬(('.').isDigit = true))]
    have hd1 : (d :: '.' :: ((r :: rs) ++ 'e' :: (if e < 0 then '-' else '+') ::
        expDigits e)).dropWhile Char.isDigit =
        '.' :: ((r :: rs) ++ 'e' :: (if e < 0 then '-' else '+') :: expDigits e) := by
      rw [List.dropWhile_cons, if_pos hde, List.dropWhile_cons,
        if_neg (by decide : ¬(('.').isDigit = true))]
    have ht2 : ((r :: rs) ++ 'e' :: (if e < 0 then '-' else '+') ::
        expDigits e).takeWhile Char.isDigit = r :: rs := by
      rw [takeWhile_all_append _ _ _ hrest, List.takeWhile_cons,
        if_neg (by decide : ¬(('e').isDigit = true)), List.append_nil]
    have hd2 : ((r :: rs) ++ 'e' :: (if e < 0 then '-' else '+') ::
        expDigits e).dropWhile Char.isDigit =
        'e' :: (if e < 0 then '-' else '+') :: expDigits e := by
      rw [dropWhile_all_append _ _ _ hrest, List.dropWhile_cons,
        if_neg (by decide : ¬(('e').isDigit = true))]
    have hm : mantissaSplit (d :: '.' :: ((r :: rs) ++ 'e' ::
        (if e < 0 then '-' else '+') :: expDigits e)) =
        some ((digitsToNat [d] : ℚ) +
          (digitsToNat (r :: rs) : ℚ) / (10 : ℚ) ^ (r :: rs).length,
          'e' :: (if e < 0 then '-' else '+') :: expDigits e) := by
      simp only [mantissaSplit, ht1, hd1, ht2, hd2, eq_self_iff_true, if_true]
      rw [if_neg (show ¬(([d] : List Char) = [] ∧ (r :: rs : List Char) = []) from
        fun hp => List.noConfusion hp.1)]
    simp only [pyFloatCore, hws,
      signSplit_digit d ('.' :: ((r :: rs) ++ 'e' :: (if e < 0 then '-' else '+') ::
        expDigits e)) hde, hm, eq_self_iff_true, true_or, if_true]
    simp only [signSplit_sgn e, hedw, hedn, ne_eq, eq_self_iff_true,
      not_true_eq_false, or_false]
    rw [if_neg (expDigits_ne_nil e), expDigits_val, signFactor_natAbs]
    rw [show mantQ (d :: r :: rs) = (digitsToNat [d] : ℚ) +
      (digitsToNat (r :: rs) : ℚ) / (10 : ℚ) ^ (r :: rs).length from rfl]
    congr 1
    push_cast
    ring
/-- The mantissa of a scientific rendering is non-negative. -/
theorem mantQ_nonneg (sig : List Char) : 0 ≤ mantQ sig := by
  cases sig with
  | nil => simp [mantQ]
  | cons d rest =>
    simp only [mantQ]
    have h1 : (0 : ℚ) ≤ (digitsToNat [d] : ℚ) := Nat.cast_nonneg _
    have h2 : (0 : ℚ) ≤ (digitsToNat rest : ℚ) / (10 : ℚ) ^ rest.length :=
      div_nonneg (Nat.cast_nonneg _) (by positivity)
    linarith

/-- The mantissa of a scientific rendering is at least one. -/
theorem one_le_mantQ (d : Char) (rest : List Char) (hd : d.isDigit = true)
    (h0 : ¬(d = '0')) : 1 ≤ mantQ (d :: rest) := by
  simp only [mantQ]
  have h1 : 1 ≤ digitsToNat [d] := by
    have h := digitsToNat_head d [] hd h0
    simpa using h
  have h1q : (1 : ℚ) ≤ (digitsToNat [d] : ℚ) := by exact_mod_cast h1
  have h2 : (0 : ℚ) ≤ (digitsToNat rest : ℚ) / (10 : ℚ) ^ rest.length :=
    div_nonneg (Nat.cast_nonneg _) (by positivity)
  linarith

/-- The mantissa of a scientific rendering is below ten. -/
theorem mantQ_lt_ten (d : Char) (rest : List Char)
    (hd : ∀ c ∈ d :: rest, c.isDigit = true) : mantQ (d :: rest) < 10 := by
  simp only [mantQ]
  have h1 : digitsToNat [d] < 10 := by
    have h := digitsToNat_lt [d] (fun c hc => by
      simp only [List.mem_singleton] at hc
      rw [hc]
      exact hd d (List.mem_cons_self d rest))
    simpa using h
  have h1q : (digitsToNat [d] : ℚ) ≤ 9 := by
    have h9 : digitsToNat [d] ≤ 9 := by omega
    exact_mod_cast h9
  have h2 : (digitsToNat rest : ℚ) / (10 : ℚ) ^ rest.length < 1 := by
    rw [div_lt_one (by positivity)]
    have h := digitsToNat_lt rest (fun c hc => hd c (List.mem_cons_of_mem d hc))
    calc (digitsToNat rest : ℚ) < (((10 : ℕ) ^ rest.length : ℕ) : ℚ) := by exact_mod_cast h
      _ = (10 : ℚ) ^ rest.length := by push_cast; ring
  linarith

/-- A rendered value of zero leaves no significant digits. -/
theorem renderDec_val_zero (ip fp : List Char)
    (hip : ∀ c ∈ ip, c.isDigit = true) (hfp : ∀ c ∈ fp, c.isDigit = true)
    (hz : (digitsToNat (intPart ip) : ℚ) +
      (digitsToNat (fracPart fp) : ℚ) / (10 : ℚ) ^ (fracPart fp).length = 0) :
    stripZerosL (intPart ip ++ fracPart fp) = [] := by
  have h1 : (0 : ℚ) ≤ (digitsToNat (intPart ip) : ℚ) := Nat.cast_nonneg _
  have h2 : (0 : ℚ) ≤ (digitsToNat (fracPart fp) : ℚ) / (10 : ℚ) ^ (fracPart fp).length :=
    div_nonneg (Nat.cast_nonneg _) (by positivity)
  have hIq : (digitsToNat (intPart ip) : ℚ) = 0 := by linarith
  have hFq : (digitsToNat (fracPart fp) : ℚ) / (10 : ℚ) ^ (fracPart fp).length = 0 := by
    linarith
  have hI0 : digitsToNat (intPart ip) = 0 := by exact_mod_cast hIq
  have hF0 : digitsToNat (fracPart fp) = 0 := by
    rcases div_eq_zero_iff.mp hFq with h | h
    · exact_mod_cast h
    · exact absurd h (by positivity)
  have hall : ∀ c ∈ intPart ip ++ fracPart fp, c = '0' := by
    intro c hc
    rcases List.mem_append.mp hc with hc | hc
    · exact digitsToNat_zero _ (intPart_digits ip hip) hI0 c hc
    · exact digitsToNat_zero _ (fracPart_digits fp hfp) hF0 c hc
  exact List.dropWhile_eq_nil_iff.mpr (fun c hc => decide_eq_true (hall c hc))

/-- Within the fixed-notation value range `{0} ∪ [1e-4, 1e16)`, re-rendering a
fixed rendering picks the fixed branch again. -/
theorem renderVal_fixed_cond (ip fp : List Char)
    (hip : ∀ c ∈ ip, c.isDigit = true) (hfp : ∀ c ∈ fp, c.isDigit = true)
    (q : ℚ)
    (hq : (digitsToNat (intPart ip) : ℚ) +
      (digitsToNat (fracPart fp) : ℚ) / (10 : ℚ) ^ (fracPart fp).length = q)
    (hrange : q = 0 ∨ ((1 : ℚ) / 10000 ≤ q ∧ q < 10 ^ 16)) :
    ¬((sigExp (intPart ip) (fracPart fp)).1 ≠ [] ∧
      ((sigExp (intPart ip) (fracPart fp)).2 < -4 ∨
        16 ≤ (sigExp (intPart ip) (fracPart fp)).2)) := by
  rintro ⟨hsne, hrg⟩
  rcases hrange with hq0 | ⟨hlo, hhi⟩
  · have hnil := renderDec_val_zero ip fp hip hfp (hq.trans hq0)
    apply hsne
    show stripZerosR (stripZerosL (intPart ip ++ fracPart fp)) = []
    rw [hnil]
    rfl
  · rcases intPart_cases ip with hI | ⟨c, t, hIct, hc0⟩
    · rw [hI] at hrg
      rw [sigExp_snd_zero] at hrg
      rcases hrg with hrg | hrg
      · have hk4 : 4 ≤ ((fracPart fp).takeWhile (fun x => decide (x = '0'))).length := by
          omega
        have hI0 : digitsToNat (intPart ip) = 0 := by
          rw [hI]
          decide
        have hqF : q = (digitsToNat (fracPart fp) : ℚ) / (10 : ℚ) ^ (fracPart fp).length := by
          rw [← hq, hI0]
          simp
        have hsplit : fracPart fp =
            (fracPart fp).takeWhile (fun x => decide (x = '0')) ++
              (fracPart fp).dropWhile (fun x => decide (x = '0')) :=
          (List.takeWhile_append_dropWhile (fun x => decide (x = '0')) (fracPart fp)).symm
        have hTz : digitsToNat ((fracPart fp).takeWhile (fun x => decide (x = '0'))) = 0 := by
          apply digitsToNat_all_zero
          intro x hx
          have hx2 := List.mem_takeWhile_imp hx
          exact of_decide_eq_true hx2
        have hFv : digitsToNat (fracPart fp) =
            digitsToNat ((fracPart fp).dropWhile (fun x => decide (x = '0'))) := by
          conv_lhs => rw [hsplit]
          rw [digitsToNat_append, hTz]
          simp
        have hdropd : ∀ c ∈ (fracPart fp).dropWhile (fun x => decide (x = '0')),
            c.isDigit = true :=
          fun c hc => fracPart_digits fp hfp c ((List.dropWhile_sublist _).subset hc)
        have hlt : digitsToNat (fracPart fp) <
            10 ^ ((fracPart fp).dropWhile (fun x => decide (x = '0'))).length := by
          rw [hFv]
          exact digitsToNat_lt _ hdropd
        have hlensum : (fracPart fp).length =
            ((fracPart fp).takeWhile (fun x => decide (x = '0'))).length +
              ((fracPart fp).dropWhile (fun x => decide (x = '0'))).length := by
          conv_lhs => rw [hsplit]
          rw [List.length_append]
        have hkle : ((fracPart fp).takeWhile (fun x => decide (x = '0'))).length ≤
            (fracPart fp).length := by omega
        have hlen : ((fracPart fp).dropWhile (fun x => decide (x = '0'))).length =
            (fracPart fp).length -
              ((fracPart fp).takeWhile (fun x => decide (x = '0'))).length := by omega
        have hltq : q < (10 : ℚ) ^ ((fracPart fp).length -
            ((fracPart fp).takeWhile (fun x => decide (x = '0'))).length) /
              (10 : ℚ) ^ (fracPart fp).length := by
          rw [hqF]
          apply div_lt_div_of_pos_right ?hnum (by positivity)
          case hnum =>
            rw [hlen] at hlt
            calc (digitsToNat (fracPart fp) : ℚ)
                < (((10 : ℕ) ^ ((fracPart fp).length -
                    ((fracPart fp).takeWhile (fun x => decide (x = '0'))).length) : ℕ) : ℚ) := by
                  exact_mod_cast hlt
              _ = (10 : ℚ) ^ ((fracPart fp).length -
                  ((fracPart fp).takeWhile (fun x => decide (x = '0'))).length) := by
                  push_cast
                  ring
        have heq : (10 : ℚ) ^ ((fracPart fp).length -
            ((fracPart fp).takeWhile (fun x => decide (x = '0'))).length) /
              (10 : ℚ) ^ (fracPart fp).length =
            1 / (10 : ℚ) ^ ((fracPart fp).takeWhile (fun x => decide (x = '0'))).length := by
          rw [div_eq_div_iff (by positivity) (by positivity), one_mul, ← pow_add,
            Nat.sub_add_cancel hkle]
        have hle4 : (1 : ℚ) / (10 : ℚ) ^
            ((fracPart fp).takeWhile (fun x => decide (x = '0'))).length ≤
              1 / (10 : ℚ) ^ (4 : ℕ) := by
          apply one_div_le_one_div_of_le (by positivity)
          exact pow_le_pow_right₀ (by norm_num) hk4
        have hfin : q < 1 / 10000 := by
          rw [heq] at hltq
          have h4 : (1 : ℚ) / (10 : ℚ) ^ (4 : ℕ) = 1 / 10000 := by norm_num
          linarith [hle4, hltq, h4.le, h4.ge]
        linarith
      · omega
    · rw [hIct] at hrg
      rw [sigExp_snd_pos c t (fracPart fp) hc0] at hrg
      rcases hrg with hrg | hrg
      · omega
      · have ht16 : 16 ≤ t.length := by exact_mod_cast hrg
        have hcd : c.isDigit = true := by
          have h := intPart_digits ip hip
          rw [hIct] at h
          exact h c (List.mem_cons_self c t)
        have hge : 10 ^ t.length ≤ digitsToNat (intPart ip) := by
          rw [hIct]
          exact digitsToNat_head c t hcd hc0
        have hge16 : (10 : ℕ) ^ 16 ≤ digitsToNat (intPart ip) :=
          le_trans (Nat.pow_le_pow_right (by omega) ht16) hge
        have hgeQ : (10 : ℚ) ^ (16 : ℕ) ≤ (digitsToNat (intPart ip) : ℚ) := by
          exact_mod_cast hge16
        have hfrac : (0 : ℚ) ≤ (digitsToNat (fracPart fp) : ℚ) /
            (10 : ℚ) ^ (fracPart fp).length :=
          div_nonneg (Nat.cast_nonneg _) (by positivity)
        have hqq : (10 : ℚ) ^ (16 : ℕ) ≤ q := by
          rw [← hq]
          linarith
        linarith

/-- A scientifically rendered value lies outside `{0} ∪ [1e-4, 1e16)`. -/
theorem sci_value_range (d : Char) (rest : List Char) (e : Int)
    (hdig : ∀ c ∈ d :: rest, c.isDigit = true) (hd0 : ¬(d = '0'))
    (hrg : e < -4 ∨ 16 ≤ e) (q : ℚ) (hv : mantQ (d :: rest) * (10 : ℚ) ^ e = q) :
    ¬(q = 0 ∨ ((1 : ℚ) / 10000 ≤ q ∧ q < 10 ^ 16)) := by
  have hm1 : 1 ≤ mantQ (d :: rest) :=
    one_le_mantQ d rest (hdig d (List.mem_cons_self d rest)) hd0
  have hm10 : mantQ (d :: rest) < 10 := mantQ_lt_ten d rest hdig
  have hppos : (0 : ℚ) < (10 : ℚ) ^ e := by positivity
  have hqpos : 0 < q := by
    rw [← hv]
    exact mul_pos (lt_of_lt_of_le zero_lt_one hm1) hppos
  rintro (h | ⟨hlo, hhi⟩)
  · exact absurd h (ne_of_gt hqpos)
  · rcases hrg with he | he
    · have h1 : q < (10 : ℚ) ^ (e + 1) := by
        rw [← hv, zpow_add_one₀ (by norm_num : (10 : ℚ) ≠ 0)]
        calc mantQ (d :: rest) * (10 : ℚ) ^ e < 10 * (10 : ℚ) ^ e :=
            mul_lt_mul_of_pos_right hm10 hppos
          _ = (10 : ℚ) ^ e * 10 := by ring
      have h2 : (10 : ℚ) ^ (e + 1) ≤ (10 : ℚ) ^ (-4 : Int) :=
        zpow_le_zpow_right₀ (by norm_num) (by omega)
      have h3 : (10 : ℚ) ^ (-4 : Int) = 1 / 10000 := by norm_num
      have hq4 : q < 1 / 10000 := by
        calc q < (10 : ℚ) ^ (e + 1) := h1
          _ ≤ (10 : ℚ) ^ (-4 : Int) := h2
          _ = 1 / 10000 := h3
      exact absurd hlo (not_le.mpr hq4)
    · have h1 : (10 : ℚ) ^ (16 : Int) ≤ (10 : ℚ) ^ e :=
        zpow_le_zpow_right₀ (by norm_num) (by omega)
      have h2 : (10 : ℚ) ^ e ≤ q := by
        rw [← hv]
        calc (10 : ℚ) ^ e = 1 * (10 : ℚ) ^ e := (one_mul _).symm
          _ ≤ mantQ (d :: rest) * (10 : ℚ) ^ e :=
            mul_le_mul_of_nonneg_right hm1 (le_of_lt hppos)
      have h3 : (10 : ℚ) ^ (16 : Int) = (10 : ℚ) ^ (16 : ℕ) := by norm_num
      rw [h3] at h1
      linarith

/-- The two branches of the notation rule. -/
theorem renderVal_split (ip fp : List Char) :
    renderVal ip fp = renderDec ip fp ∨
    ((sigExp ip fp).1 ≠ [] ∧ ((sigExp ip fp).2 < -4 ∨ 16 ≤ (sigExp ip fp).2) ∧
      renderVal ip fp = renderSci (sigExp ip fp).1 (sigExp ip fp).2) := by
  by_cases h : (sigExp ip fp).1 ≠ [] ∧ ((sigExp ip fp).2 < -4 ∨ 16 ≤ (sigExp ip fp).2)
  · exact Or.inr ⟨h.1, h.2, by rw [renderVal, if_pos h]⟩
  · exact Or.inl (by rw [renderVal, if_neg h])

/-- Cleaning fixes every fixed-notation rendering whose re-parse stays in the
fixed branch: `clean_priceCore` is the identity there. -/
theorem clean_priceCore_renderDec (ip fp : List Char)
    (hip : ∀ c ∈ ip, c.isDigit = true) (hfp : ∀ c ∈ fp, c.isDigit = true)
    (hfix : ¬((sigExp (intPart ip) (fracPart fp)).1 ≠ [] ∧
      ((sigExp (intPart ip) (fracPart fp)).2 < -4 ∨
        16 ≤ (sigExp (intPart ip) (fracPart fp)).2))) :
    clean_priceCore (renderDec ip fp) = renderDec ip fp := by
  have hchars := renderDec_chars ip fp hip hfp
  have hI := intPart_digits ip hip
  have hF := fracPart_digits fp hfp
  have hne : renderDec ip fp ≠ [] := by
    rw [renderDec_eq]
    intro h
    exact intPart_ne_nil ip (List.append_eq_nil.mp h).1
  have hfilter : (renderDec ip fp).filter (fun c => c.isDigit || c = '.' || c = ',') =
      renderDec ip fp := by
    refine List.filter_eq_self.mpr (fun a ha => ?_)
    rcases hchars a ha with hd | hd
    · simp [hd]
    · subst hd
      decide
  have hcomma : hasChar (renderDec ip fp) ',' = false := by
    unfold hasChar
    refine List.any_eq_false.mpr (fun x hx => ?_)
    rcases hchars x hx with hd | hd
    · simp only [beq_iff_eq]
      exact digit_ne x ',' hd (by decide)
    · subst hd
      decide
  have hcfix : commaFix (renderDec ip fp) = renderDec ip fp := by
    unfold commaFix
    rw [hcomma]
    simp
  have hfpw : (fracPart fp).takeWhile Char.isDigit = fracPart fp :=
    List.takeWhile_eq_self_iff.mpr hF
  have hfpd : (fracPart fp).dropWhile Char.isDigit = [] :=
    List.dropWhile_eq_nil_iff.mpr hF
  have hnorm : normDecimal (renderDec ip fp) = some (renderDec ip fp) := by
    rw [renderDec_eq]
    simp only [normDecimal]
    rw [takeWhile_all_append _ _ _ hI, dropWhile_all_append _ _ _ hI,
      takeWhile_dot, dropWhile_dot, List.append_nil]
    simp only [reduceIte, hfpw, hfpd, ne_eq, eq_self_iff_true, not_true_eq_false,
      if_false]
    have hcond : ¬(intPart ip = [] ∧ fracPart fp = []) :=
      fun hp => intPart_ne_nil ip hp.1
    rw [if_neg hcond]
    rw [show renderVal (intPart ip) (fracPart fp) =
      renderDec (intPart ip) (fracPart fp) from by rw [renderVal, if_neg hfix]]
    rw [show renderDec (intPart ip) (fracPart fp) = intPart ip ++ '.' :: fracPart fp from by
      rw [renderDec_eq, intPart_idem, fracPart_idem]]
  unfold clean_priceCore
  rw [if_neg hne, hfilter, hcfix, hnorm]

/-- Every `some` output of `normDecimal` is a notation-rule rendering of digit
lists. -/
theorem normDecimal_shape (l out : List Char) (h : normDecimal l = some out) :
    ∃ ip fp, (∀ c ∈ ip, c.isDigit = true) ∧ (∀ c ∈ fp, c.isDigit = true) ∧
      out = renderVal ip fp := by
  simp only [normDecimal] at h
  split at h
  · split at h
    · exact Option.noConfusion h
    · injection h with h
      exact ⟨l.takeWhile Char.isDigit, [],
        fun c hc => List.mem_takeWhile_imp hc, by simp, h.symm⟩
  · rename_i cdot r2 hr
    split at h
    · split at h
      · exact Option.noConfusion h
      · split at h
        · exact Option.noConfusion h
        · injection h with h
          exact ⟨l.takeWhile Char.isDigit, List.takeWhile Char.isDigit r2,
            fun c hc => List.mem_takeWhile_imp hc,
            fun c hc => List.mem_takeWhile_imp hc, h.symm⟩
    · exact Option.noConfusion h

/-- The three possible forms of a `clean_price` result: the failure sentinel,
a fixed-notation rendering, or a scientific rendering with decimal exponent
outside `[-4, 16)`. -/
theorem clean_priceCore_shape (l : List Char) :
    clean_priceCore l = ['0'] ∨
      (∃ ip fp, (∀ c ∈ ip, c.isDigit = true) ∧ (∀ c ∈ fp, c.isDigit = true) ∧
        clean_priceCore l = renderDec ip fp) ∨
      (∃ d rest e, (∀ c ∈ d :: rest, c.isDigit = true) ∧ ¬(d = '0') ∧
        (e < -4 ∨ 16 ≤ e) ∧ clean_priceCore l = renderSci (d :: rest) e) := by
  unfold clean_priceCore
  by_cases h0 : l = []
  · rw [if_pos h0]
    exact Or.inl rfl
  · rw [if_neg h0]
    cases hn : normDecimal (commaFix (l.filter (fun c => c.isDigit || c = '.' || c = ','))) with
    | none => exact Or.inl rfl
    | some out =>
      obtain ⟨ip, fp, hip, hfp, hout⟩ := normDecimal_shape _ _ hn
      rcases renderVal_split ip fp with hv | ⟨hsne, hrg, hv⟩
      · exact Or.inr (Or.inl ⟨ip, fp, hip, hfp, by rw [hout, hv]⟩)
      · obtain ⟨d, rest, hdr⟩ : ∃ d rest, (sigExp ip fp).1 = d :: rest := by
          cases hs : (sigExp ip fp).1 with
          | nil => exact absurd hs hsne
          | cons d rest => exact ⟨d, rest, rfl⟩
        refine Or.inr (Or.inr ⟨d, rest, (sigExp ip fp).2, ?_, ?_, hrg, ?_⟩)
        · intro c hc
          exact sigExp_fst_digits ip fp hip hfp c (hdr ▸ hc)
        · exact sigExp_fst_head ip fp d rest hdr
        · rw [hout, hv, hdr]

/-- C7 counterexample: `clean_price` is NOT idempotent.  On the empty string
(or any input with no surviving numeral) the first application returns the
sentinel `"0"` and the second `"0.0"`; on `"0.00001"` the first application
returns the scientific rendering `"1e-05"`, whose digit filter collapses it
to `"105.0"` on the second. -/
theorem clean_price_not_idempotent :
    (clean_price "" = "0" ∧ clean_price (clean_price "") = "0.0" ∧
      clean_price (clean_price "") ≠ clean_price "") ∧
    (clean_price "0.00001" = "1e-05" ∧
      clean_price (clean_price "0.00001") = "105.0" ∧
      clean_price (clean_price "0.00001") ≠ clean_price "0.00001") := by
  refine ⟨⟨by decide, by decide, by decide⟩, by decide, by decide, by decide⟩

/-- C7 (amended): `clean_price` always returns a string parseable as a
non-negative float, and it is idempotent exactly on the fixable results:
whenever the result is not the failure sentinel `"0"` (which a second
application turns into `"0.0"`) and its parsed value lies in the
fixed-notation printing range — zero or `[1e-4, 1e16)` — a second application
returns the result unchanged.  Results outside that value range are printed
in scientific notation, which the counterexample shows a second application
destroys. -/
theorem clean_price_parseable_idempotent (x : String) :
    (∃ q, pyFloatQ (clean_price x) = some q ∧ 0 ≤ q) ∧
    (∀ q : ℚ, clean_price x ≠ "0" → pyFloatQ (clean_price x) = some q →
      q = 0 ∨ ((1 : ℚ) / 10000 ≤ q ∧ q < 10 ^ 16) →
      clean_price (clean_price x) = clean_price x) := by
  rcases clean_priceCore_shape x.data with h | ⟨ip, fp, hip, hfp, h⟩ |
    ⟨d, rest, e, hdig, hd0, hrg, h⟩
  · constructor
    · refine ⟨0, ?_, le_refl 0⟩
      rw [pyFloatQ, clean_price, h]
      with_unfolding_all rfl
    · intro q hne _ _
      exact absurd (by rw [clean_price, h] : clean_price x = "0") hne
  · have hval := pyFloat_renderDec ip fp hip hfp
    constructor
    · refine ⟨(digitsToNat (intPart ip) : ℚ) +
        (digitsToNat (fracPart fp) : ℚ) / (10 : ℚ) ^ (fracPart fp).length, ?_, ?_⟩
      · rw [pyFloatQ, clean_price, h]
        exact hval
      · have h1 : (0 : ℚ) ≤ (digitsToNat (intPart ip) : ℚ) := Nat.cast_nonneg _
        have h2 : (0 : ℚ) ≤ (digitsToNat (fracPart fp) : ℚ) /
            (10 : ℚ) ^ (fracPart fp).length :=
          div_nonneg (Nat.cast_nonneg _) (by positivity)
        linarith
    · intro q _ hq hrange
      have hqe : pyFloatCore (renderDec ip fp) = some q := by
        rw [pyFloatQ, clean_price, h] at hq
        exact hq
      have hv : (digitsToNat (intPart ip) : ℚ) +
          (digitsToNat (fracPart fp) : ℚ) / (10 : ℚ) ^ (fracPart fp).length = q :=
        Option.some.inj (hval.symm.trans hqe)
      have hfix := renderVal_fixed_cond ip fp hip hfp q hv hrange
      have hx : clean_price x = String.mk (renderDec ip fp) := by
        rw [clean_price, h]
      rw [hx]
      rw [show clean_price (String.mk (renderDec ip fp)) =
        String.mk (clean_priceCore (renderDec ip fp)) from rfl]
      rw [clean_priceCore_renderDec ip fp hip hfp hfix]
  · have hval := pyFloat_renderSci d rest e hdig
    constructor
    · refine ⟨mantQ (d :: rest) * (10 : ℚ) ^ e, ?_, ?_⟩
      · rw [pyFloatQ, clean_price, h]
        exact hval
      · exact mul_nonneg (mantQ_nonneg _) (le_of_lt (by positivity))
    · intro q _ hq hrange
      have hqe : pyFloatCore (renderSci (d :: rest) e) = some q := by
        rw [pyFloatQ, clean_price, h] at hq
        exact hq
      have hv : mantQ (d :: rest) * (10 : ℚ) ^ e = q :=
        Option.some.inj (hval.symm.trans hqe)
      exact absurd hrange (sci_value_range d rest e hdig hd0 hrg q hv)

/-- Witness for C7's amended statement at `"12.30"` (cleaned to `"12.3"`,
value `123/10` in the fixed-notation range, a fixed point). -/
theorem clean_price_parseable_idempotent_witness :
    clean_price (clean_price "12.30") = clean_price "12.30" :=
  (clean_price_parseable_idempotent "12.30").2 ((123 : ℚ) / 10) (by decide)
    (by with_unfolding_all rfl) (Or.inr (by norm_num))

/-! ## Claim C8 — the pattern order of `extract_price_from_text` -/

/-- C8 counterexample: on `"500 items cost: 123"` the source's pattern order
returns `("500", "")` — the bare-amount pattern at index 5 preempts the later
`cost` pattern — while the spec's stated precision order (bare amount last)
would return `("123", "")`. -/
theorem extract_price_order_differs :
    extract_price_from_text "500 items cost: 123" = ("500", "") ∧
    extract_price_spec_order "500 items cost: 123" = ("123", "") := by
  constructor <;> rfl

/-- C8 (amended): `extract_price_from_text` tries `PRICE_PATTERNS` in SOURCE
order — symbol-prefixed, symbol-suffixed, ISO-coded, the two
`price`-qualified patterns, then already the bare amount, and only after it
the `cost`/word-suffixed/`starting at`/`from` patterns — returning the first
pattern's valid (non-empty, non-year) match: whenever the first five
patterns yield nothing and the bare-amount pattern yields a valid match,
that match is the result, regardless of the later qualified patterns. -/
theorem bare_amount_preempts_qualified (t : String) (r : String × String)
    (hne : t ≠ "")
    (h0 : tryPattern pat0 t.data = none) (h1 : tryPattern pat1 t.data = none)
    (h2 : tryPattern pat2 t.data = none) (h3 : tryPattern pat3 t.data = none)
    (h4 : tryPattern pat4 t.data = none) (h5 : tryPattern pat5 t.data = some r) :
    extract_price_from_text t = r := by
  unfold extract_price_from_text
  rw [if_neg hne]
  unfold PRICE_PATTERNS
  simp only [extractLoop, h0, h1, h2, h3, h4, h5]

/-- Witness for C8's amended statement: on `"500 items cost: 123"` the bare
amount `"500"` wins although the `cost` pattern would also have produced a
valid match (`"123"`). -/
theorem bare_amount_preempts_qualified_witness :
    extract_price_from_text "500 items cost: 123" = ("500", "") ∧
    tryPattern pat6 "500 items cost: 123".data = some ("123", "") :=
  ⟨bare_amount_preempts_qualified "500 items cost: 123" ("500", "")
    (by decide) rfl rfl rfl rfl rfl rfl, rfl⟩
